import Mathlib

/-!
# Lispy: a shallow embedding of the evaluator

The definitions below follow `src/lispy/lval.go` (the value type, its printer,
the reader of parse trees, the S-expression evaluator and the builtins) and
`src/lispy/lispy.go` (the binary operator `evalOp` of the arithmetic-only
evaluator).

Conventions of the embedding

* `*lval` values form a tree (no child is shared, no child is nil), so a value
  is a record whose `cells` field is a list of values, and a Go method that
  mutates its receiver becomes a function returning the new record.
* `int64` is `Int` together with `wrap64`, which reduces a mathematical result
  to the two's-complement range.
* A Go run-time panic and the exhaustion of the recursion budget are the two
  ways not to return a value; both are `Except.error` with a `Fault` saying
  which one happened. A `*lval` that may be nil (the result of `lvalRead`) is
  an `Option lval`.
* Recursion between `lvalEval`, `lvalEvalSexpr`, `builtin` and `builtinEval`
  is bounded by a fuel argument of `lvalEval`; `while`-style loops carry a
  fuel argument initialised with the number of cells they consume.
-/

namespace Lispy

/-! ## Machine integers and strings -/

/-- Two's-complement reduction of a mathematical integer to `int64`. -/
def wrap64 (x : Int) : Int := (x + 2 ^ 63) % 2 ^ 64 - 2 ^ 63

/-- Smallest `int64`. -/
def minInt64 : Int := -(2 ^ 63)

/-- Largest `int64`. -/
def maxInt64 : Int := 2 ^ 63 - 1

/-- Substring test on character lists. -/
def containsChars : List Char → List Char → Bool
  | [], sub => sub.isEmpty
  | c :: cs, sub => sub.isPrefixOf (c :: cs) || containsChars cs sub

/-- Go's `strings.Contains(s, substr)`. -/
def stringsContains (s substr : String) : Bool := containsChars s.data substr.data

/-- Go's `big.Int.Exp(x, y, nil)`: `x ** y`, except that the result is `1`
when `y <= 0` (documented behaviour of `math/big` for a nil modulus). -/
def bigExp (x y : Int) : Int := if y ≤ 0 then 1 else x ^ y.toNat

/-! ## Faults -/

/-- Ways in which a call does not return a value. -/
inductive Fault where
  | outOfFuel
  | indexOutOfRange
  | divideByZero
  | nilDereference
  deriving DecidableEq, Repr

/-! ## The value type (`lval.go`) -/

abbrev lvalNumType : Nat := 0
abbrev lvalSymType : Nat := 1
abbrev lvalSexprType : Nat := 2
abbrev lvalQexprType : Nat := 3
abbrev lvalErrType : Nat := 4

/-- The Go struct `lval`. -/
structure lval where
  ltype : Nat
  num : Int
  err : String
  sym : String
  cells : List lval
  deriving Repr

/-- `lvalNum` creates an lval number. -/
def lvalNum (x : Int) : lval :=
  { ltype := lvalNumType, num := x, err := "", sym := "", cells := [] }

/-- `lvalErr` creates an lval error. -/
def lvalErr (s : String) : lval :=
  { ltype := lvalErrType, num := 0, err := s, sym := "", cells := [] }

/-- `lvalSym` creates an lval symbol. -/
def lvalSym (s : String) : lval :=
  { ltype := lvalSymType, num := 0, err := "", sym := s, cells := [] }

/-- `lvalSexpr` creates an (empty) lval S-expression. -/
def lvalSexpr : lval :=
  { ltype := lvalSexprType, num := 0, err := "", sym := "", cells := [] }

/-- `lvalQexpr` creates an (empty) lval Q-expression. -/
def lvalQexpr : lval :=
  { ltype := lvalQexprType, num := 0, err := "", sym := "", cells := [] }

/-- Method `cellCount`. -/
def lval.cellCount (v : lval) : Nat := v.cells.length

/-- Method `lvalAdd` (the argument is never nil in this embedding). -/
def lval.lvalAdd (v x : lval) : lval := { v with cells := v.cells ++ [x] }

/-- Method `lvalPop`: the removed cell and the receiver without it; indexing
outside the cells is the Go panic. -/
def lval.lvalPop (v : lval) (i : Nat) : Except Fault (lval × lval) :=
  match v.cells[i]? with
  | none => .error .indexOutOfRange
  | some x => .ok (x, { v with cells := v.cells.eraseIdx i })

/-- Method `lvalTake`. -/
def lval.lvalTake (v : lval) (i : Nat) : Except Fault lval :=
  match v.lvalPop i with
  | .error e => .error e
  | .ok (x, _) => .ok x

/-! ## Arithmetic builtin -/

/-- One iteration of the loop of `builtinOp`, after `y` was popped. -/
def builtinOpStep (op : String) (x y : lval) : lval :=
  if op == "+" then { x with num := wrap64 (x.num + y.num) }
  else if op == "-" then { x with num := wrap64 (x.num - y.num) }
  else if op == "*" then { x with num := wrap64 (x.num * y.num) }
  else if op == "/" then
    if y.num == 0 then lvalErr "Division By Zero!"
    else { x with num := wrap64 (Int.tdiv x.num y.num) }
  else x

/-- The loop `for a.cellCount() > 0` of `builtinOp`. -/
def builtinOpLoop (op : String) : Nat → lval → lval → Except Fault lval
  | 0, a, x => if a.cellCount > 0 then .error .outOfFuel else .ok x
  | fuel + 1, a, x =>
    if a.cellCount > 0 then
      match a.lvalPop 0 with
      | .error e => .error e
      | .ok (y, a) => builtinOpLoop op fuel a (builtinOpStep op x y)
    else .ok x

/-- Function `builtinOp`. -/
def builtinOp (a : lval) (op : String) : Except Fault lval :=
  if a.cells.any (fun cell => cell.ltype != lvalNumType) then
    .ok (lvalErr "Cannot operate on non-number!")
  else
    match a.lvalPop 0 with
    | .error e => .error e
    | .ok (x, a) =>
      let x := if op == "-" && a.cellCount == 0 then { x with num := wrap64 (-x.num) } else x
      builtinOpLoop op a.cellCount a x

/-! ## List builtins -/

/-- The loop `for v.cellCount() > 1 { v.lvalPop(1) }` of `builtinHead`. -/
def builtinHeadLoop : Nat → lval → Except Fault lval
  | 0, v => if v.cellCount > 1 then .error .outOfFuel else .ok v
  | fuel + 1, v =>
    if v.cellCount > 1 then
      match v.lvalPop 1 with
      | .error e => .error e
      | .ok (_, v) => builtinHeadLoop fuel v
    else .ok v

/-- Function `builtinHead`. -/
def builtinHead (a : lval) : Except Fault lval :=
  if a.cellCount != 1 then .ok (lvalErr "Function 'head' passed too many arguments!")
  else
    match a.cells[0]? with
    | none => .error .indexOutOfRange
    | some a0 =>
      if a0.ltype != lvalQexprType then .ok (lvalErr "Function 'head' passed incorrect types!")
      else if a0.cellCount == 0 then .ok (lvalErr "Function 'head' passed \x7b\x7d!")
      else
        match a.lvalTake 0 with
        | .error e => .error e
        | .ok v => builtinHeadLoop v.cellCount v

/-- Function `builtinTail`. -/
def builtinTail (a : lval) : Except Fault lval :=
  if a.cellCount != 1 then .ok (lvalErr "Function 'tail' passed too many arguments!")
  else
    match a.cells[0]? with
    | none => .error .indexOutOfRange
    | some a0 =>
      if a0.ltype != lvalQexprType then .ok (lvalErr "Function 'tail' passed incorrect types!")
      else if a0.cellCount == 0 then .ok (lvalErr "Function 'tail' passed \x7b\x7d!")
      else
        match a.lvalTake 0 with
        | .error e => .error e
        | .ok v =>
          match v.lvalPop 0 with
          | .error e => .error e
          | .ok (_, v) => .ok v

/-- Function `builtinList`. -/
def builtinList (a : lval) : lval := { a with ltype := lvalQexprType }

/-- Function `lvalJoin`: the loop `for y.cellCount() > 0 { x.lvalAdd(y.lvalPop(0)) }`. -/
def lvalJoinLoop : Nat → lval → lval → Except Fault lval
  | 0, x, y => if y.cellCount > 0 then .error .outOfFuel else .ok x
  | fuel + 1, x, y =>
    if y.cellCount > 0 then
      match y.lvalPop 0 with
      | .error e => .error e
      | .ok (c, y) => lvalJoinLoop fuel (x.lvalAdd c) y
    else .ok x

/-- Function `lvalJoin`. -/
def lvalJoin (x y : lval) : Except Fault lval := lvalJoinLoop y.cellCount x y

/-- The loop `for a.cellCount() > 0 { x = lvalJoin(x, a.lvalPop(0)) }` of `builtinJoin`. -/
def builtinJoinLoop : Nat → lval → lval → Except Fault lval
  | 0, a, x => if a.cellCount > 0 then .error .outOfFuel else .ok x
  | fuel + 1, a, x =>
    if a.cellCount > 0 then
      match a.lvalPop 0 with
      | .error e => .error e
      | .ok (y, a) =>
        match lvalJoin x y with
        | .error e => .error e
        | .ok x => builtinJoinLoop fuel a x
    else .ok x

/-- Function `builtinJoin`. -/
def builtinJoin (a : lval) : Except Fault lval :=
  if a.cells.any (fun cell => cell.ltype != lvalQexprType) then
    .ok (lvalErr "Function 'join' passed incorrect type.")
  else
    match a.lvalPop 0 with
    | .error e => .error e
    | .ok (x, a) => builtinJoinLoop a.cellCount a x

/-! ## The evaluator

`ev` stands for the recursive call of `lvalEval`. -/

/-- Function `builtinEval`. -/
def builtinEval (ev : lval → Except Fault lval) (a : lval) : Except Fault lval :=
  if a.cellCount != 1 then .ok (lvalErr "Function 'eval' passed too many arguments!")
  else
    match a.cells[0]? with
    | none => .error .indexOutOfRange
    | some a0 =>
      if a0.ltype != lvalQexprType then .ok (lvalErr "Function 'eval' passed incorrect type!")
      else
        match a.lvalTake 0 with
        | .error e => .error e
        | .ok x => ev { x with ltype := lvalSexprType }

/-- Function `builtin`. -/
def builtin (ev : lval → Except Fault lval) (a : lval) (function : String) :
    Except Fault lval :=
  if function == "list" then .ok (builtinList a)
  else if function == "head" then builtinHead a
  else if function == "tail" then builtinTail a
  else if function == "join" then builtinJoin a
  else if function == "eval" then builtinEval ev a
  else if stringsContains "+-/*" function then builtinOp a function
  else .ok (lvalErr "Unknown Function!")

/-- First loop of `lvalEvalSexpr`: every cell is replaced by its value. -/
def evalCells (ev : lval → Except Fault lval) : List lval → Except Fault (List lval)
  | [] => .ok []
  | cell :: rest =>
    match ev cell with
    | .error e => .error e
    | .ok c =>
      match evalCells ev rest with
      | .error e => .error e
      | .ok cs => .ok (c :: cs)

/-- Second loop of `lvalEvalSexpr`: the index of the first cell that is an
error, counting from `i`. -/
def firstErrIndex : List lval → Nat → Option Nat
  | [], _ => none
  | cell :: rest, i => if cell.ltype == lvalErrType then some i else firstErrIndex rest (i + 1)

/-- Method `lvalEvalSexpr`. -/
def lvalEvalSexpr (ev : lval → Except Fault lval) (v : lval) : Except Fault lval :=
  match evalCells ev v.cells with
  | .error e => .error e
  | .ok cs =>
    let v : lval := { v with cells := cs }
    match firstErrIndex v.cells 0 with
    | some i => v.lvalTake i
    | none =>
      if v.cellCount == 0 then .ok v
      else if v.cellCount == 1 then v.lvalTake 0
      else
        match v.lvalPop 0 with
        | .error e => .error e
        | .ok (f, v) =>
          if f.ltype != lvalSymType then .ok (lvalErr "S-expression does not start with symbol!")
          else builtin ev v f.sym

/-- Method `lvalEval`; the first argument bounds the depth of the recursion. -/
def lvalEval : Nat → lval → Except Fault lval
  | 0, _ => .error .outOfFuel
  | fuel + 1, v =>
    if v.ltype == lvalSexprType then lvalEvalSexpr (lvalEval fuel) v else .ok v

/-! ## The binary operator of `lispy.go` -/

/-- Modelled from the spec: the constant `lerrDivZero`, whose declaration is not
among the sources; the message of the arithmetic error is "Division By Zero!". -/
def lerrDivZero : String := "Division By Zero!"

/-- Modelled from the spec: the constant `lerrBadOp`, whose declaration is not
among the sources; the message listed by the spec is "Bad operator". -/
def lerrBadOp : String := "Bad operator"

/-- Function `evalOp` of `lispy.go`. The remainder by zero is the Go run-time
panic "integer divide by zero". -/
def evalOp (x : lval) (op : String) (y : lval) : Except Fault lval :=
  if x.ltype == lvalErrType then .ok x
  else if x.ltype == lvalErrType then .ok y
  else if stringsContains op "+" || stringsContains op "add" then
    .ok (lvalNum (wrap64 (x.num + y.num)))
  else if stringsContains op "-" || stringsContains op "sub" then
    .ok (lvalNum (wrap64 (x.num - y.num)))
  else if stringsContains op "*" || stringsContains op "mul" then
    .ok (lvalNum (wrap64 (x.num * y.num)))
  else if stringsContains op "/" || stringsContains op "div" then
    if y.num == 0 then .ok (lvalErr lerrDivZero)
    else .ok (lvalNum (wrap64 (Int.tdiv x.num y.num)))
  else if stringsContains op "%" || stringsContains op "mod" then
    if y.num == 0 then .error .divideByZero
    else .ok (lvalNum (wrap64 (Int.tmod x.num y.num)))
  else if stringsContains op "^" || stringsContains op "pow" then
    .ok (lvalNum (wrap64 (bigExp x.num y.num)))
  else .ok (lvalErr lerrBadOp)


/-! ## Auxiliary notions used by the statements

`ArithTree` and its value follow the wording of the specification; they are what
the evaluator is compared with. -/

/-- The S-expression with the given cells, as built by `lvalSexpr` and `lvalAdd`. -/
def sexprOf (cs : List lval) : lval := { lvalSexpr with cells := cs }


/-- Values that are not a non-empty S-expression: nothing is left to evaluate. -/
def isResult (r : lval) : Prop := r.ltype ≠ lvalSexprType ∨ r.cells = []


/-- Operators of arithmetic expression trees. -/
inductive ArithOp where
  | add
  | sub
  | mul

/-- The symbol naming the operator. -/
def ArithOp.symbol : ArithOp → String
  | .add => "+"
  | .sub => "-"
  | .mul => "*"

/-- The operator on two `int64` operands, in wrapping arithmetic. -/
def ArithOp.apply : ArithOp → Int → Int → Int
  | .add, x, y => wrap64 (x + y)
  | .sub, x, y => wrap64 (x - y)
  | .mul, x, y => wrap64 (x * y)

/-- Arithmetic expression trees: a Number, or an operator applied to at least
two operands that are trees again. -/
inductive ArithTree where
  | number (n : Int)
  | apply (op : ArithOp) (first second : ArithTree) (rest : List ArithTree)

/- The value read from the text of a tree. -/
mutual
def ArithTree.toLval : ArithTree → lval
  | .number n => lvalNum n
  | .apply op a b rest =>
    sexprOf (lvalSym op.symbol :: a.toLval :: b.toLval :: ArithTree.toLvals rest)
def ArithTree.toLvals : List ArithTree → List lval
  | [] => []
  | t :: ts => t.toLval :: ArithTree.toLvals ts
end

/- The number a tree denotes: the left fold of the operator over the operands. -/
mutual
def ArithTree.value : ArithTree → Int
  | .number n => n
  | .apply op a b rest => (b.value :: ArithTree.values rest).foldl op.apply a.value
def ArithTree.values : List ArithTree → List Int
  | [] => []
  | t :: ts => t.value :: ArithTree.values ts
end

/- Nesting depth of a tree. -/
mutual
def ArithTree.depth : ArithTree → Nat
  | .number _ => 0
  | .apply _ a b rest => 1 + max a.depth (max b.depth (ArithTree.depths rest))
def ArithTree.depths : List ArithTree → Nat
  | [] => 0
  | t :: ts => max t.depth (ArithTree.depths ts)
end

/-! ## Printing (`lvalString`, `lvalExprString`) -/

/-- Go's `strconv.FormatInt(x, 10)`: the decimal digits of the magnitude, after
a minus sign when `x` is negative. -/
def formatInt (x : Int) : String :=
  if x < 0 then "-" ++ Nat.repr x.natAbs else Nat.repr x.natAbs

/- Method `lvalString`, together with the loop of `lvalExprString`: the cells
still to print, the index `i` of the first of them, the cell count and the
string built so far. -/
mutual
def lval.lvalString : lval → String
  | ⟨ltype, num, err, sym, cells⟩ =>
    if ltype == lvalNumType then formatInt num
    else if ltype == lvalErrType then "Error: " ++ err
    else if ltype == lvalSymType then sym
    else if ltype == lvalSexprType then lvalExprStringLoop cells 0 cells.length "(" ++ ")"
    else if ltype == lvalQexprType then
      lvalExprStringLoop cells 0 cells.length "\x7b" ++ "\x7d"
    else "Error: lvalString() unhandled ltype " ++ Nat.repr ltype
def lvalExprStringLoop : List lval → Nat → Nat → String → String
  | [], _, _, s => s
  | cell :: rest, i, count, s =>
    let s := s ++ cell.lvalString
    let s := if i < count - 1 then s ++ " " else s
    lvalExprStringLoop rest (i + 1) count s
end

/-- Method `lvalExprString`. -/
def lval.lvalExprString (v : lval) (openChar closeChar : String) : String :=
  lvalExprStringLoop v.cells 0 v.cellCount openChar ++ closeChar

/- The printer as the specification words it: a Number is its signed decimal
numeral, a Symbol its name, an Error its message after "Error: ", and a list
its printed cells joined by a single space between the delimiters. -/
mutual
def printValue : lval → String
  | ⟨ltype, num, err, sym, cells⟩ =>
    if ltype = lvalNumType then toString num
    else if ltype = lvalSymType then sym
    else if ltype = lvalErrType then "Error: " ++ err
    else if ltype = lvalSexprType then "(" ++ " ".intercalate (printValues cells) ++ ")"
    else if ltype = lvalQexprType then "\x7b" ++ " ".intercalate (printValues cells) ++ "\x7d"
    else ""
def printValues : List lval → List String
  | [] => []
  | cell :: rest => printValue cell :: printValues rest
end

/- Values all of whose nodes carry one of the five tags. -/
mutual
def lval.wellTagged : lval → Bool
  | ⟨ltype, _, _, _, cells⟩ => decide (ltype ≤ lvalErrType) && wellTaggedCells cells
def wellTaggedCells : List lval → Bool
  | [] => true
  | cell :: rest => cell.wellTagged && wellTaggedCells rest
end

/-! ## Reading a parse tree (`lvalRead`, `lvalReadNum`) -/

/-- The parse tree of the `mpc` library as the reader sees it: `GetTag`,
`GetContents`, and the children behind `GetNumChildren` and `GetChild`. -/
structure MpcAst where
  tag : String
  contents : String
  children : List MpcAst

/-- Go's `strconv.ParseInt(s, 10, 0)` on a 64-bit platform: an optional sign
followed by at least one decimal digit, with a value in the `int64` range;
`none` is the case of a non-nil error. -/
def parseInt (s : String) : Option Int :=
  match s.data with
  | [] => none
  | c :: cs =>
    let neg := c == '-'
    let digits := if c == '+' || c == '-' then cs else c :: cs
    if digits.isEmpty || !digits.all Char.isDigit then none
    else
      let un : Nat := digits.foldl (fun acc d => acc * 10 + (d.toNat - '0'.toNat)) 0
      let x : Int := if neg then -(un : Int) else (un : Int)
      if minInt64 ≤ x ∧ x ≤ maxInt64 then some x else none

/-- Function `lvalReadNum`. -/
def lvalReadNum (tree : MpcAst) : lval :=
  match parseInt tree.contents with
  | none => lvalErr "Invalid Number!"
  | some x => lvalNum x

/-- The test of the loop of `lvalRead` that skips a child. -/
def isSkippedChild (iChild : MpcAst) : Bool :=
  iChild.contents == "(" || iChild.contents == ")" || iChild.contents == "\x7b" ||
    iChild.contents == "\x7d" || iChild.tag == "regex"

/- Function `lvalRead`, together with its loop over the children. The result
is `none` for the nil pointer; `x.lvalAdd` on a nil `x` with a non-nil argument
is the nil dereference, and a nil argument is reported and not added. -/
mutual
def lvalRead : MpcAst → Except Fault (Option lval)
  | ⟨tag, contents, children⟩ =>
    if stringsContains tag "number" then .ok (some (lvalReadNum ⟨tag, contents, children⟩))
    else if stringsContains tag "symbol" then .ok (some (lvalSym contents))
    else
      let x : Option lval :=
        if tag == ">" then some lvalSexpr
        else if stringsContains tag "sexpr" then some lvalSexpr
        else if stringsContains tag "qexpr" then some lvalQexpr
        else none
      lvalReadLoop children x
def lvalReadLoop : List MpcAst → Option lval → Except Fault (Option lval)
  | [], x => .ok x
  | iChild :: rest, x =>
    if isSkippedChild iChild then lvalReadLoop rest x
    else
      match lvalRead iChild with
      | .error e => .error e
      | .ok none => lvalReadLoop rest x
      | .ok (some c) =>
        match x with
        | none => .error .nilDereference
        | some v => lvalReadLoop rest (some (v.lvalAdd c))
end

/-- The tags for which `lvalRead` creates a value. -/
def recognisedTag (tag : String) : Bool :=
  stringsContains tag "number" || stringsContains tag "symbol" || tag == ">" ||
    stringsContains tag "sexpr" || stringsContains tag "qexpr"

/-- The argument list is exactly one non-empty Q-expression. -/
def oneNonEmptyQexpr (a : lval) : Prop :=
  ∃ q : lval, a.cells = [q] ∧ q.ltype = lvalQexprType ∧ q.cells ≠ []

/-- The substrings of the four-character operator string tested by `builtin`. -/
def opSubstrings : List String :=
  ["", "+", "-", "/", "*", "+-", "-/", "/*", "+-/", "-/*", "+-/*"]

/-- The children that the loop of `lvalRead` does not skip. -/
def keptChildren (t : MpcAst) : List MpcAst :=
  t.children.filter (fun c => !isSkippedChild c)

/-- The parse tree of `+ 2 (* 7 6) (* 2 5)`. -/
def exampleTree : MpcAst :=
  ⟨">", "",
    [⟨"regex", "", []⟩, ⟨"expr|symbol|regex", "+", []⟩, ⟨"expr|number|regex", "2", []⟩,
     ⟨"expr|sexpr|>", "",
       [⟨"char", "(", []⟩, ⟨"expr|symbol|regex", "*", []⟩, ⟨"expr|number|regex", "7", []⟩,
        ⟨"expr|number|regex", "6", []⟩, ⟨"char", ")", []⟩]⟩,
     ⟨"expr|sexpr|>", "",
       [⟨"char", "(", []⟩, ⟨"expr|symbol|regex", "*", []⟩, ⟨"expr|number|regex", "2", []⟩,
        ⟨"expr|number|regex", "5", []⟩, ⟨"char", ")", []⟩]⟩,
     ⟨"regex", "", []⟩]⟩

/- The number of nodes of a value: the value itself and the nodes of its cells. -/
mutual
def lval.size : lval → Nat
  | ⟨_, _, _, _, cells⟩ => 1 + sizeCells cells
def sizeCells : List lval → Nat
  | [] => 0
  | cell :: rest => cell.size + sizeCells rest
end

/-- A call returns a value, and that value has at most `bound` nodes. -/
def returnsWithin (res : Except Fault lval) (bound : Nat) : Prop :=
  ∃ r, res = .ok r ∧ r.size ≤ bound

/-! ## Basic facts -/

theorem lvalPop_zero_cons (v c : lval) (cs : List lval) (h : v.cells = c :: cs) :
    v.lvalPop 0 = .ok (c, { v with cells := cs }) := by
  simp [lval.lvalPop, h]

theorem lvalTake_eq (v x : lval) (i : Nat) (h : v.cells[i]? = some x) :
    v.lvalTake i = .ok x := by
  simp [lval.lvalTake, lval.lvalPop, h]

/-- With fuel for every cell, the loop of `builtinOp` is a left fold of its step. -/
theorem builtinOpLoop_eq_foldl (op : String) :
    ∀ (fuel : Nat) (a x : lval), a.cells.length ≤ fuel →
      builtinOpLoop op fuel a x = .ok (a.cells.foldl (builtinOpStep op) x) := by
  intro fuel
  induction fuel with
  | zero =>
    intro a x h
    have h0 : a.cells = [] := List.length_eq_zero.mp (Nat.le_zero.mp h)
    simp [builtinOpLoop, lval.cellCount, h0]
  | succ n ih =>
    intro a x h
    cases hc : a.cells with
    | nil => simp [builtinOpLoop, lval.cellCount, hc]
    | cons y rest =>
      have hlen : rest.length ≤ n := by
        rw [hc] at h
        simpa using h
      simp only [builtinOpLoop, lval.cellCount, hc, List.length_cons, Nat.zero_lt_succ, if_true,
        lvalPop_zero_cons a y rest hc, List.foldl_cons]
      exact ih { a with cells := rest } (builtinOpStep op x y) hlen

theorem builtinOpLoop_cellCount (op : String) (a x : lval) :
    builtinOpLoop op a.cellCount a x = .ok (a.cells.foldl (builtinOpStep op) x) :=
  builtinOpLoop_eq_foldl op a.cellCount a x (Nat.le_refl _)

/-- The first error index is the position of an error cell with no error before it. -/
theorem firstErrIndex_some (cs : List lval) :
    ∀ (i k : Nat), firstErrIndex cs i = some k →
      ∃ j e, k = i + j ∧ cs[j]? = some e ∧ e.ltype = lvalErrType ∧
        ∀ m c, m < j → cs[m]? = some c → c.ltype ≠ lvalErrType := by
  induction cs with
  | nil => intro i k h; simp [firstErrIndex] at h
  | cons c rest ih =>
    intro i k h
    by_cases hc : c.ltype = lvalErrType
    · simp [firstErrIndex, hc] at h
      exact ⟨0, c, by omega, by simp, hc, by intro m c' hm; omega⟩
    · simp [firstErrIndex, hc] at h
      obtain ⟨j, e, hk, hj, he, hmin⟩ := ih (i + 1) k h
      refine ⟨j + 1, e, by omega, by simpa using hj, he, ?_⟩
      intro m c' hm hget
      cases m with
      | zero =>
        simp at hget
        rw [← hget]; exact hc
      | succ m' =>
        simp at hget
        exact hmin m' c' (by omega) hget

theorem firstErrIndex_none (cs : List lval) :
    ∀ i : Nat, firstErrIndex cs i = none → ∀ c ∈ cs, c.ltype ≠ lvalErrType := by
  induction cs with
  | nil => intro i _ c hc; simp at hc
  | cons c rest ih =>
    intro i h c' hc'
    by_cases hc : c.ltype = lvalErrType
    · simp [firstErrIndex, hc] at h
    · simp [firstErrIndex, hc] at h
      rcases List.mem_cons.mp hc' with h1 | h1
      · rw [h1]; exact hc
      · exact ih (i + 1) h c' h1

theorem firstErrIndex_isSome_of_mem (cs : List lval) :
    ∀ i : Nat, (∃ c ∈ cs, c.ltype = lvalErrType) → ∃ k, firstErrIndex cs i = some k := by
  intro i h
  cases hf : firstErrIndex cs i with
  | some k => exact ⟨k, rfl⟩
  | none =>
    obtain ⟨c, hc, he⟩ := h
    exact absurd he (firstErrIndex_none cs i hf c hc)

/-! ## Claims -/

/-- C1: when, after the cells of an S-expression `v` have been evaluated in
order, at least one of the evaluated cells is an error, `lvalEvalSexpr`
returns the evaluated cell of lowest index that is an error (and so does
`lvalEval` on `v`); no builtin is applied. -/
theorem lvalEvalSexpr_returns_first_error (fuel : Nat) (v : lval) (cs : List lval)
    (hv : v.ltype = lvalSexprType)
    (hcs : evalCells (lvalEval fuel) v.cells = .ok cs)
    (herr : ∃ c ∈ cs, c.ltype = lvalErrType) :
    ∃ i e, cs[i]? = some e ∧ e.ltype = lvalErrType ∧
      (∀ (j : Nat) (c : lval), j < i → cs[j]? = some c → c.ltype ≠ lvalErrType) ∧
      lvalEvalSexpr (lvalEval fuel) v = .ok e ∧ lvalEval (fuel + 1) v = .ok e := by
  obtain ⟨k, hk⟩ := firstErrIndex_isSome_of_mem cs 0 herr
  obtain ⟨j, e, hkj, hj, he, hmin⟩ := firstErrIndex_some cs 0 k hk
  have hkj' : k = j := by omega
  subst hkj'
  have hres : lvalEvalSexpr (lvalEval fuel) v = .ok e := by
    simp only [lvalEvalSexpr, hcs, hk]
    exact lvalTake_eq _ e k hj
  refine ⟨k, e, hj, he, hmin, hres, ?_⟩
  simp [lvalEval, hv, hres]

/-- Witness for C1: `(+ 1 (/ 1 0) (/ 2 0))`, whose first erroneous cell is the third. -/
theorem lvalEvalSexpr_returns_first_error_witness :
    ∃ i e, [lvalSym "+", lvalNum 1, lvalErr "Division By Zero!",
          lvalErr "Division By Zero!"][i]? = some e ∧ e.ltype = lvalErrType ∧
      (∀ (j : Nat) (c : lval), j < i → [lvalSym "+", lvalNum 1, lvalErr "Division By Zero!",
          lvalErr "Division By Zero!"][j]? = some c → c.ltype ≠ lvalErrType) ∧
      lvalEvalSexpr (lvalEval 2)
        { lvalSexpr with cells := [lvalSym "+", lvalNum 1,
            { lvalSexpr with cells := [lvalSym "/", lvalNum 1, lvalNum 0] },
            { lvalSexpr with cells := [lvalSym "/", lvalNum 2, lvalNum 0] }] }
        = .ok e ∧
      lvalEval (2 + 1)
        { lvalSexpr with cells := [lvalSym "+", lvalNum 1,
            { lvalSexpr with cells := [lvalSym "/", lvalNum 1, lvalNum 0] },
            { lvalSexpr with cells := [lvalSym "/", lvalNum 2, lvalNum 0] }] }
        = .ok e :=
  lvalEvalSexpr_returns_first_error 2
    { lvalSexpr with cells := [lvalSym "+", lvalNum 1,
        { lvalSexpr with cells := [lvalSym "/", lvalNum 1, lvalNum 0] },
        { lvalSexpr with cells := [lvalSym "/", lvalNum 2, lvalNum 0] }] }
    [lvalSym "+", lvalNum 1, lvalErr "Division By Zero!", lvalErr "Division By Zero!"]
    rfl rfl ⟨lvalErr "Division By Zero!", by simp, rfl⟩


/-- C2: `evalOp` does not propagate an error held by its right argument. With a
Number on the left and an Error on the right the second guard (which tests
`x.ltype` again) is not taken, and the operator is applied to the numeric
fields: `+ 1 (/ 1 0)` is the Number 1. -/
theorem evalOp_right_error_not_propagated :
    (∀ (n : Int) (msg : String),
      evalOp (lvalNum n) "+" (lvalErr msg) = .ok (lvalNum (wrap64 (n + 0)))) ∧
    evalOp (lvalNum 1) "/" (lvalNum 0) = .ok (lvalErr "Division By Zero!") ∧
    evalOp (lvalNum 1) "+" (lvalErr "Division By Zero!") = .ok (lvalNum 1) ∧
    (lvalNum 1).ltype = lvalNumType ∧ (lvalNum 1).ltype ≠ lvalErrType := by
  refine ⟨?_, rfl, rfl, rfl, by decide⟩
  intro n msg
  rfl

/-- Once the accumulator of a division is the error, it stays the error. -/
theorem foldl_div_from_error (rest : List lval) :
    rest.foldl (builtinOpStep "/") (lvalErr "Division By Zero!")
      = lvalErr "Division By Zero!" := by
  induction rest with
  | nil => rfl
  | cons y rest ih =>
    rw [List.foldl_cons]
    have hstep : builtinOpStep "/" (lvalErr "Division By Zero!") y
        = lvalErr "Division By Zero!" := by
      by_cases hy : y.num = 0
      · simp [builtinOpStep, hy]
      · simp [builtinOpStep, hy, lvalErr, wrap64]
    rw [hstep, ih]

/-- A zero divisor anywhere in the remaining cells makes the fold the error. -/
theorem foldl_div_zero (rest : List lval) :
    ∀ x : lval, (∃ c ∈ rest, c.num = 0) →
      rest.foldl (builtinOpStep "/") x = lvalErr "Division By Zero!" := by
  induction rest with
  | nil => intro x h; simp at h
  | cons y rest ih =>
    intro x h
    rw [List.foldl_cons]
    by_cases hy : y.num = 0
    · have hstep : builtinOpStep "/" x y = lvalErr "Division By Zero!" := by
        simp [builtinOpStep, hy]
      rw [hstep, foldl_div_from_error]
    · apply ih
      obtain ⟨c, hc, hz⟩ := h
      rcases List.mem_cons.mp hc with h1 | h1
      · rw [h1] at hz; exact absurd hz hy
      · exact ⟨c, h1, hz⟩

theorem any_ne_false_of_forall (cs : List lval) (t : Nat) (h : ∀ c ∈ cs, c.ltype = t) :
    cs.any (fun cell => cell.ltype != t) = false := by
  simp only [List.any_eq_false]
  intro c hc
  simp [h c hc]

/-- C4: on at least two Numbers of which one after the first is 0,
`builtinOp(a, "/")` returns the error "Division By Zero!", whatever follows
the zero divisor. -/
theorem builtinOp_div_by_zero (a : lval)
    (hnum : ∀ c ∈ a.cells, c.ltype = lvalNumType)
    (hlen : 2 ≤ a.cells.length)
    (hzero : ∃ c ∈ a.cells.tail, c.num = 0) :
    builtinOp a "/" = .ok (lvalErr "Division By Zero!") := by
  cases hc : a.cells with
  | nil => rw [hc] at hlen; simp at hlen
  | cons x rest =>
    rw [hc] at hzero
    have hany := any_ne_false_of_forall a.cells lvalNumType hnum
    have hop : (("/" : String) == "-") = false := by decide
    simp only [builtinOp, hany, lvalPop_zero_cons a x rest hc, hop, Bool.false_and]
    simp only [Bool.false_eq_true, if_false, builtinOpLoop_cellCount]
    exact congrArg Except.ok (foldl_div_zero rest x hzero)

/-- Witness for C4: `/ 10 0 5`. -/
theorem builtinOp_div_by_zero_witness :
    builtinOp { lvalSexpr with cells := [lvalNum 10, lvalNum 0, lvalNum 5] } "/"
      = .ok (lvalErr "Division By Zero!") :=
  builtinOp_div_by_zero { lvalSexpr with cells := [lvalNum 10, lvalNum 0, lvalNum 5] }
    (by intro c hc; simp at hc; rcases hc with h | h | h <;> rw [h] <;> rfl)
    (by decide)
    ⟨lvalNum 0, by simp, rfl⟩

/-- C5: `evalOp` has no zero-divisor guard on the remainder: for "%" and "mod"
a zero right operand reaches the integer remainder, which is the run-time
fault, while "/" and "div" return the error value. -/
theorem evalOp_mod_zero_faults (n : Int) :
    evalOp (lvalNum n) "%" (lvalNum 0) = .error .divideByZero ∧
    evalOp (lvalNum n) "mod" (lvalNum 0) = .error .divideByZero ∧
    evalOp (lvalNum n) "/" (lvalNum 0) = .ok (lvalErr "Division By Zero!") ∧
    evalOp (lvalNum n) "div" (lvalNum 0) = .ok (lvalErr "Division By Zero!") :=
  ⟨rfl, rfl, rfl, rfl⟩


theorem wrap64_of_range (x : Int) (h : minInt64 ≤ x ∧ x ≤ maxInt64) : wrap64 x = x := by
  unfold wrap64
  unfold minInt64 maxInt64 at h
  omega

theorem wrap64_neg_min : wrap64 (-minInt64) = minInt64 := by decide

/-- C6: on the single Number `n`, `builtinOp` with "-" returns the Number
`-n` in wrapping arithmetic (so `-n` itself unless `n` is the least `int64`,
which is returned as it is), and with "+", "*" or "/" it returns the Number
`n` unchanged. -/
theorem builtinOp_single_number (a : lval) (n : Int)
    (hn : minInt64 ≤ n ∧ n ≤ maxInt64) (ha : a.cells = [lvalNum n]) :
    builtinOp a "-" = .ok (lvalNum (wrap64 (-n))) ∧
    (n ≠ minInt64 → wrap64 (-n) = -n) ∧
    (n = minInt64 → wrap64 (-n) = n) ∧
    builtinOp a "+" = .ok (lvalNum n) ∧
    builtinOp a "*" = .ok (lvalNum n) ∧
    builtinOp a "/" = .ok (lvalNum n) := by
  have hany : a.cells.any (fun cell => cell.ltype != lvalNumType) = false := by
    rw [ha]; rfl
  have hpop := lvalPop_zero_cons a (lvalNum n) [] ha
  have h1 : (("+" : String) == "-") = false := by decide
  have h2 : (("*" : String) == "-") = false := by decide
  have h3 : (("/" : String) == "-") = false := by decide
  refine ⟨?_, ?_, ?_, ?_, ?_, ?_⟩
  · simp [builtinOp, hany, hpop, builtinOpLoop, lval.cellCount, lvalNum]
  · intro hne
    apply wrap64_of_range
    unfold minInt64 maxInt64 at *
    omega
  · intro he
    rw [he]
    exact wrap64_neg_min
  · simp [builtinOp, hany, hpop, builtinOpLoop_cellCount, h1]
  · simp [builtinOp, hany, hpop, builtinOpLoop_cellCount, h2]
  · simp [builtinOp, hany, hpop, builtinOpLoop_cellCount, h3]

/-- Witness for C6: `- 100`. -/
theorem builtinOp_single_number_witness :
    (minInt64 ≤ 100 ∧ (100 : Int) ≤ maxInt64) ∧
    builtinOp { lvalSexpr with cells := [lvalNum 100] } "-" = .ok (lvalNum (-100)) ∧
    builtinOp { lvalSexpr with cells := [lvalNum 100] } "+" = .ok (lvalNum 100) :=
  ⟨by decide,
   (builtinOp_single_number { lvalSexpr with cells := [lvalNum 100] } 100 (by decide) rfl).1,
   (builtinOp_single_number { lvalSexpr with cells := [lvalNum 100] } 100 (by decide) rfl).2.2.2.1⟩


theorem lval_with_cells_self (v : lval) (cs : List lval) (h : v.cells = cs) :
    ({ v with cells := cs } : lval) = v := by
  cases v
  simp_all

theorem lvalPop_one_cons (v c0 c1 : lval) (cs : List lval) (h : v.cells = c0 :: c1 :: cs) :
    v.lvalPop 1 = .ok (c1, { v with cells := c0 :: cs }) := by
  simp [lval.lvalPop, h]

/-- With fuel for every cell, the loop of `builtinHead` keeps the first cell only. -/
theorem builtinHeadLoop_eq_take (fuel : Nat) :
    ∀ v : lval, v.cells.length ≤ fuel + 1 →
      builtinHeadLoop fuel v = .ok { v with cells := v.cells.take 1 } := by
  induction fuel with
  | zero =>
    intro v h
    have hlen : ¬ (v.cellCount > 1) := by
      simp only [lval.cellCount]; omega
    have htake : v.cells.take 1 = v.cells := List.take_of_length_le (by omega)
    simp only [builtinHeadLoop, hlen, if_false, htake]
    rw [lval_with_cells_self v v.cells rfl]
  | succ n ih =>
    intro v h
    match hc : v.cells with
    | [] =>
      simp [builtinHeadLoop, lval.cellCount, hc]
      exact (lval_with_cells_self v [] hc).symm
    | [c0] =>
      simp [builtinHeadLoop, lval.cellCount, hc]
      exact (lval_with_cells_self v [c0] hc).symm
    | c0 :: c1 :: rest =>
      have hlen : rest.length + 1 ≤ n + 1 := by
        rw [hc] at h
        simp only [List.length_cons] at h
        omega
      simp only [builtinHeadLoop, lval.cellCount, hc, List.length_cons,
        lvalPop_one_cons v c0 c1 rest hc]
      have := ih { v with cells := c0 :: rest } (by simpa using hlen)
      simpa using this

theorem builtinHeadLoop_cellCount (v : lval) :
    builtinHeadLoop v.cellCount v = .ok { v with cells := v.cells.take 1 } :=
  builtinHeadLoop_eq_take v.cellCount v (Nat.le_succ _)

/-- C7: applied to exactly one Q-expression with cells `c0, c1, ..., cn`,
`builtinHead` returns that Q-expression with `c0` as its only cell. -/
theorem builtinHead_singleton (a q c0 : lval) (rest : List lval)
    (ha : a.cells = [q]) (hq : q.ltype = lvalQexprType) (hc : q.cells = c0 :: rest) :
    builtinHead a = .ok { q with cells := [c0] } ∧
      ({ q with cells := [c0] } : lval).ltype = lvalQexprType := by
  refine ⟨?_, hq⟩
  have htake : a.lvalTake 0 = .ok q := lvalTake_eq a q 0 (by simp [ha])
  have hcount : a.cellCount = 1 := by simp [lval.cellCount, ha]
  have hq0 : (q.cellCount == 0) = false := by simp [lval.cellCount, hc]
  have hloop : builtinHeadLoop q.cellCount q = .ok { q with cells := [c0] } := by
    rw [builtinHeadLoop_cellCount, hc]
    rfl
  simp [builtinHead, hcount, ha, hq, hq0, htake, hloop]

/-- Witness for C7: `head {1 2 3}` is `{1}`. -/
theorem builtinHead_singleton_witness :
    builtinHead { lvalSexpr with cells :=
        [{ lvalQexpr with cells := [lvalNum 1, lvalNum 2, lvalNum 3] }] }
      = .ok { lvalQexpr with cells := [lvalNum 1] } ∧
    ({ lvalQexpr with cells := [lvalNum 1] } : lval).ltype = lvalQexprType :=
  builtinHead_singleton
    { lvalSexpr with cells := [{ lvalQexpr with cells := [lvalNum 1, lvalNum 2, lvalNum 3] }] }
    { lvalQexpr with cells := [lvalNum 1, lvalNum 2, lvalNum 3] }
    (lvalNum 1) [lvalNum 2, lvalNum 3] rfl rfl rfl

/-- C8: applied to exactly one Q-expression with cells `c0, c1, ..., cn`,
`builtinTail` returns that Q-expression with the cells `c1, ..., cn`, in the
same order (none when `n = 0`). -/
theorem builtinTail_rest (a q c0 : lval) (rest : List lval)
    (ha : a.cells = [q]) (hq : q.ltype = lvalQexprType) (hc : q.cells = c0 :: rest) :
    builtinTail a = .ok { q with cells := rest } ∧
      ({ q with cells := rest } : lval).ltype = lvalQexprType := by
  refine ⟨?_, hq⟩
  have htake : a.lvalTake 0 = .ok q := lvalTake_eq a q 0 (by simp [ha])
  simp [builtinTail, lval.cellCount, ha, hq, hc, htake, lvalPop_zero_cons q c0 rest hc]

/-- Witness for C8: `tail {tail tail tail}` is `{tail tail}`. -/
theorem builtinTail_rest_witness :
    builtinTail { lvalSexpr with cells :=
        [{ lvalQexpr with cells := [lvalSym "tail", lvalSym "tail", lvalSym "tail"] }] }
      = .ok { lvalQexpr with cells := [lvalSym "tail", lvalSym "tail"] } ∧
    ({ lvalQexpr with cells := [lvalSym "tail", lvalSym "tail"] } : lval).ltype
      = lvalQexprType :=
  builtinTail_rest
    { lvalSexpr with cells :=
        [{ lvalQexpr with cells := [lvalSym "tail", lvalSym "tail", lvalSym "tail"] }] }
    { lvalQexpr with cells := [lvalSym "tail", lvalSym "tail", lvalSym "tail"] }
    (lvalSym "tail") [lvalSym "tail", lvalSym "tail"] rfl rfl rfl

/-- With fuel for every cell of `y`, `lvalJoin` appends the cells of `y` to `x`. -/
theorem lvalJoinLoop_eq_append (fuel : Nat) :
    ∀ x y : lval, y.cells.length ≤ fuel →
      lvalJoinLoop fuel x y = .ok { x with cells := x.cells ++ y.cells } := by
  induction fuel with
  | zero =>
    intro x y h
    have h0 : y.cells = [] := List.length_eq_zero.mp (Nat.le_zero.mp h)
    simp [lvalJoinLoop, lval.cellCount, h0]
    exact (lval_with_cells_self x x.cells rfl).symm
  | succ n ih =>
    intro x y h
    cases hc : y.cells with
    | nil =>
      simp [lvalJoinLoop, lval.cellCount, hc]
      exact (lval_with_cells_self x x.cells rfl).symm
    | cons c rest =>
      have hlen : rest.length ≤ n := by
        rw [hc] at h
        simpa using h
      simp only [lvalJoinLoop, lval.cellCount, hc, List.length_cons, Nat.zero_lt_succ, if_true,
        lvalPop_zero_cons y c rest hc]
      have := ih (x.lvalAdd c) { y with cells := rest } hlen
      simpa [lval.lvalAdd] using this

theorem lvalJoin_eq_append (x y : lval) :
    lvalJoin x y = .ok { x with cells := x.cells ++ y.cells } :=
  lvalJoinLoop_eq_append y.cellCount x y (Nat.le_refl _)

/-- With fuel for every argument, the loop of `builtinJoin` appends the cells
of all remaining arguments, in order. -/
theorem builtinJoinLoop_eq_flatten (fuel : Nat) :
    ∀ a x : lval, a.cells.length ≤ fuel →
      builtinJoinLoop fuel a x
        = .ok { x with cells := x.cells ++ (a.cells.map lval.cells).flatten } := by
  induction fuel with
  | zero =>
    intro a x h
    have h0 : a.cells = [] := List.length_eq_zero.mp (Nat.le_zero.mp h)
    simp [builtinJoinLoop, lval.cellCount, h0]
    exact (lval_with_cells_self x x.cells rfl).symm
  | succ n ih =>
    intro a x h
    cases hc : a.cells with
    | nil =>
      simp [builtinJoinLoop, lval.cellCount, hc]
      exact (lval_with_cells_self x x.cells rfl).symm
    | cons y rest =>
      have hlen : rest.length ≤ n := by
        rw [hc] at h
        simpa using h
      simp only [builtinJoinLoop, lval.cellCount, hc, List.length_cons, Nat.zero_lt_succ,
        if_true, lvalPop_zero_cons a y rest hc, lvalJoin_eq_append]
      have := ih { a with cells := rest } { x with cells := x.cells ++ y.cells } hlen
      simpa using this

theorem builtinJoinLoop_cellCount (a x : lval) :
    builtinJoinLoop a.cellCount a x
      = .ok { x with cells := x.cells ++ (a.cells.map lval.cells).flatten } :=
  builtinJoinLoop_eq_flatten a.cellCount a x (Nat.le_refl _)

/-- C9: on a non-empty list of Q-expressions `q1, ..., qn`, `builtinJoin`
returns `q1` with, as cells, the cells of `q1` followed by those of `q2`, ...,
followed by those of `qn`, each in its order; when one of two operands has no
cell, the cells of the result are those of the other operand. -/
theorem builtinJoin_concat (a q1 : lval) (qs : List lval)
    (ha : a.cells = q1 :: qs) (hq : ∀ c ∈ a.cells, c.ltype = lvalQexprType) :
    builtinJoin a = .ok { q1 with cells := (a.cells.map lval.cells).flatten } ∧
    ({ q1 with cells := (a.cells.map lval.cells).flatten } : lval).ltype = lvalQexprType ∧
    (∀ q2 : lval, qs = [q2] → q2.cells = [] →
      (a.cells.map lval.cells).flatten = q1.cells) ∧
    (∀ q2 : lval, qs = [q2] → q1.cells = [] →
      (a.cells.map lval.cells).flatten = q2.cells) := by
  have hany := any_ne_false_of_forall a.cells lvalQexprType hq
  refine ⟨?_, ?_, ?_, ?_⟩
  · simp only [builtinJoin, hany, Bool.false_eq_true, if_false, lvalPop_zero_cons a q1 qs ha,
      builtinJoinLoop_cellCount]
    rw [ha]
    simp
  · exact hq q1 (by simp [ha])
  · intro q2 h2 he
    simp [ha, h2, he]
  · intro q2 h2 he
    simp [ha, h2, he]

/-- Witness for C9: `join {1 2} {} {3}` is `{1 2 3}`. -/
theorem builtinJoin_concat_witness :
    builtinJoin { lvalSexpr with cells :=
        [{ lvalQexpr with cells := [lvalNum 1, lvalNum 2] }, lvalQexpr,
         { lvalQexpr with cells := [lvalNum 3] }] }
      = .ok { lvalQexpr with cells := [lvalNum 1, lvalNum 2, lvalNum 3] } :=
  (builtinJoin_concat
    { lvalSexpr with cells :=
        [{ lvalQexpr with cells := [lvalNum 1, lvalNum 2] }, lvalQexpr,
         { lvalQexpr with cells := [lvalNum 3] }] }
    { lvalQexpr with cells := [lvalNum 1, lvalNum 2] }
    [lvalQexpr, { lvalQexpr with cells := [lvalNum 3] }] rfl
    (by intro c hc; simp at hc; rcases hc with h | h | h <;> rw [h] <;> rfl)).1


/-! ## Results of the evaluator -/

theorem lvalEval_of_isResult (r : lval) (h : isResult r) (fuel : Nat) :
    lvalEval (fuel + 1) r = .ok r := by
  by_cases hs : r.ltype = lvalSexprType
  · have hc : r.cells = [] := by
      rcases h with h | h
      · exact absurd hs h
      · exact h
    rcases r with ⟨t, n, e, s, cs⟩
    simp only at hs hc
    subst hs
    subst hc
    simp [lvalEval, lvalEvalSexpr, evalCells, firstErrIndex, lval.cellCount]
  · simp [lvalEval, hs]

theorem evalCells_mem (ev : lval → Except Fault lval) :
    ∀ (cs rs : List lval), evalCells ev cs = .ok rs → ∀ r ∈ rs, ∃ c ∈ cs, ev c = .ok r := by
  intro cs
  induction cs with
  | nil =>
    intro rs h r hr
    simp [evalCells] at h
    subst h
    simp at hr
  | cons c rest ih =>
    intro rs h r hr
    cases hc : ev c with
    | error e => simp [evalCells, hc] at h
    | ok c' =>
      cases hrest : evalCells ev rest with
      | error e => simp [evalCells, hc, hrest] at h
      | ok rs' =>
        simp [evalCells, hc, hrest] at h
        rw [← h] at hr
        rcases List.mem_cons.mp hr with h1 | h1
        · exact ⟨c, by simp, by rw [h1]; exact hc⟩
        · obtain ⟨c2, hc2, hev⟩ := ih rs' hrest r h1
          exact ⟨c2, List.mem_cons_of_mem _ hc2, hev⟩

theorem builtinOpStep_ltype (op : String) (x y : lval)
    (hx : x.ltype = lvalNumType ∨ x.ltype = lvalErrType) :
    (builtinOpStep op x y).ltype = lvalNumType ∨
      (builtinOpStep op x y).ltype = lvalErrType := by
  unfold builtinOpStep
  split_ifs <;> simp [lvalErr, hx]

theorem foldl_builtinOpStep_ltype (op : String) (rest : List lval) :
    ∀ x : lval, (x.ltype = lvalNumType ∨ x.ltype = lvalErrType) →
      ((rest.foldl (builtinOpStep op) x).ltype = lvalNumType ∨
        (rest.foldl (builtinOpStep op) x).ltype = lvalErrType) := by
  induction rest with
  | nil => intro x hx; exact hx
  | cons y rest ih =>
    intro x hx
    rw [List.foldl_cons]
    exact ih _ (builtinOpStep_ltype op x y hx)

theorem builtinOp_ltype (a : lval) (op : String) (r : lval) (h : builtinOp a op = .ok r) :
    r.ltype = lvalNumType ∨ r.ltype = lvalErrType := by
  unfold builtinOp at h
  split at h
  · simp at h
    rw [← h]
    right; rfl
  · rename_i hany
    cases hc : a.cells with
    | nil => simp [lval.lvalPop, hc] at h
    | cons x rest =>
      have hx : x.ltype = lvalNumType := by
        simp only [Bool.not_eq_true, List.any_eq_false, hc] at hany
        have := hany x (by simp)
        simpa using this
      simp only [lvalPop_zero_cons a x rest hc, builtinOpLoop_cellCount] at h
      simp only [Except.ok.injEq] at h
      rw [← h]
      apply foldl_builtinOpStep_ltype
      left
      split_ifs <;> simp [hx]

theorem builtinHead_ltype (a r : lval) (h : builtinHead a = .ok r) :
    r.ltype = lvalQexprType ∨ r.ltype = lvalErrType := by
  unfold builtinHead at h
  split at h
  · simp at h; rw [← h]; right; rfl
  · cases h0 : a.cells[0]? with
    | none => simp [h0] at h
    | some a0 =>
      simp only [h0] at h
      split at h
      · simp at h; rw [← h]; right; rfl
      · rename_i hq
        split at h
        · simp at h; rw [← h]; right; rfl
        · simp only [lvalTake_eq a a0 0 h0, builtinHeadLoop_cellCount, Except.ok.injEq] at h
          rw [← h]
          left
          simpa using hq

theorem builtinTail_ltype (a r : lval) (h : builtinTail a = .ok r) :
    r.ltype = lvalQexprType ∨ r.ltype = lvalErrType := by
  unfold builtinTail at h
  split at h
  · simp at h; rw [← h]; right; rfl
  · cases h0 : a.cells[0]? with
    | none => simp [h0] at h
    | some a0 =>
      simp only [h0] at h
      split at h
      · simp at h; rw [← h]; right; rfl
      · rename_i hq
        split at h
        · simp at h; rw [← h]; right; rfl
        · simp only [lvalTake_eq a a0 0 h0] at h
          cases hc : a0.cells with
          | nil => simp [lval.lvalPop, hc] at h
          | cons c0 rest =>
            simp only [lvalPop_zero_cons a0 c0 rest hc, Except.ok.injEq] at h
            rw [← h]
            left
            simpa using hq

theorem builtinJoin_ltype (a r : lval) (h : builtinJoin a = .ok r) :
    r.ltype = lvalQexprType ∨ r.ltype = lvalErrType := by
  unfold builtinJoin at h
  split at h
  · simp at h; rw [← h]; right; rfl
  · rename_i hany
    cases hc : a.cells with
    | nil => simp [lval.lvalPop, hc] at h
    | cons x rest =>
      have hx : x.ltype = lvalQexprType := by
        simp only [Bool.not_eq_true, List.any_eq_false, hc] at hany
        have := hany x (by simp)
        simpa using this
      simp only [lvalPop_zero_cons a x rest hc, builtinJoinLoop_cellCount, Except.ok.injEq] at h
      rw [← h]
      left
      exact hx

theorem builtinEval_isResult (ev : lval → Except Fault lval)
    (hev : ∀ v r, ev v = .ok r → isResult r) (a r : lval)
    (h : builtinEval ev a = .ok r) : isResult r := by
  unfold builtinEval at h
  split at h
  · simp at h; rw [← h]; left; decide
  · cases h0 : a.cells[0]? with
    | none => simp [h0] at h
    | some a0 =>
      simp only [h0] at h
      split at h
      · simp at h; rw [← h]; left; decide
      · simp only [lvalTake_eq a a0 0 h0] at h
        exact hev _ r h

theorem isResult_of_ltype (r : lval) (t : Nat) (ht : t ≠ lvalSexprType)
    (h : r.ltype = t ∨ r.ltype = lvalErrType) : isResult r := by
  left
  rcases h with h | h
  · rw [h]; exact ht
  · rw [h]; decide

theorem builtin_isResult (ev : lval → Except Fault lval)
    (hev : ∀ v r, ev v = .ok r → isResult r) (a : lval) (function : String) (r : lval)
    (h : builtin ev a function = .ok r) : isResult r := by
  unfold builtin at h
  split at h
  · simp at h; rw [← h]; left; simp [builtinList]
  · split at h
    · exact isResult_of_ltype r lvalQexprType (by decide) (builtinHead_ltype a r h)
    · split at h
      · exact isResult_of_ltype r lvalQexprType (by decide) (builtinTail_ltype a r h)
      · split at h
        · exact isResult_of_ltype r lvalQexprType (by decide) (builtinJoin_ltype a r h)
        · split at h
          · exact builtinEval_isResult ev hev a r h
          · split at h
            · exact isResult_of_ltype r lvalNumType (by decide) (builtinOp_ltype a function r h)
            · simp at h; rw [← h]; left; decide

theorem lvalEvalSexpr_isResult (ev : lval → Except Fault lval)
    (hev : ∀ v r, ev v = .ok r → isResult r) (v r : lval)
    (h : lvalEvalSexpr ev v = .ok r) : isResult r := by
  unfold lvalEvalSexpr at h
  cases hcs : evalCells ev v.cells with
  | error e => simp [hcs] at h
  | ok cs =>
    simp only [hcs] at h
    have hmem := evalCells_mem ev v.cells cs hcs
    cases hf : firstErrIndex cs 0 with
    | some k =>
      simp only [hf] at h
      obtain ⟨j, e, _, hj, he, _⟩ := firstErrIndex_some cs 0 k hf
      have hk : k = j := by omega
      subst hk
      rw [lvalTake_eq _ e k hj] at h
      simp only [Except.ok.injEq] at h
      rw [← h]
      left; rw [he]; decide
    | none =>
      simp only [hf] at h
      match hc : cs with
      | [] =>
        simp [lval.cellCount] at h
        rw [← h]
        right; rfl
      | [c] =>
        simp [lval.cellCount, lval.lvalTake, lval.lvalPop] at h
        rw [← h]
        obtain ⟨c0, _, hc0⟩ := hmem c (by simp)
        exact hev c0 c hc0
      | f :: c :: rest =>
        simp only [lval.cellCount, List.length_cons] at h
        rw [lvalPop_zero_cons _ f (c :: rest) rfl] at h
        by_cases hsym : f.ltype = lvalSymType
        · simp [hsym] at h
          exact builtin_isResult ev hev _ _ r h
        · simp [hsym] at h
          rw [← h]; left; decide

/-- The value returned by `lvalEval` is never a non-empty S-expression. -/
theorem lvalEval_isResult : ∀ (fuel : Nat) (v r : lval), lvalEval fuel v = .ok r → isResult r := by
  intro fuel
  induction fuel with
  | zero => intro v r h; simp [lvalEval] at h
  | succ n ih =>
    intro v r h
    simp only [lvalEval] at h
    split at h
    · exact lvalEvalSexpr_isResult (lvalEval n) ih v r h
    · rename_i hs
      simp only [Except.ok.injEq] at h
      rw [← h]
      left
      simpa using hs


theorem lvalEval_singleton (fuel : Nat) (v x : lval)
    (hv : v.ltype = lvalSexprType) (hc : v.cells = [x]) :
    lvalEval (fuel + 1) v = lvalEval fuel x := by
  simp only [lvalEval, hv, beq_self_eq_true, if_true, lvalEvalSexpr, hc, evalCells]
  cases hx : lvalEval fuel x with
  | error e => rfl
  | ok r =>
    by_cases hr : r.ltype = lvalErrType
    · simp [firstErrIndex, hr, lval.lvalTake, lval.lvalPop]
    · simp [firstErrIndex, hr, lval.lvalTake, lval.lvalPop, lval.cellCount]

/-- C10: evaluating `(eval (list x))` gives what evaluating `(x)` gives, which
is the value of `x` itself (an error included): with two more units of fuel
than `x` is given, the former returns exactly what `lvalEval` returns on `x`,
and `(x)` does so with one more unit; `(eval (list (+ 1 2)))` is 3 and
`(eval (list (/ 1 0)))` is the division error. -/
theorem lvalEval_eval_list (fuel : Nat) (x : lval) :
    lvalEval (fuel + 2) (sexprOf [lvalSym "eval", sexprOf [lvalSym "list", x]])
      = lvalEval fuel x ∧
    lvalEval (fuel + 1) (sexprOf [x]) = lvalEval fuel x ∧
    lvalEval 4 (sexprOf [lvalSym "eval", sexprOf [lvalSym "list",
        sexprOf [lvalSym "+", lvalNum 1, lvalNum 2]]]) = .ok (lvalNum 3) ∧
    lvalEval 4 (sexprOf [lvalSym "eval", sexprOf [lvalSym "list",
        sexprOf [lvalSym "/", lvalNum 1, lvalNum 0]]]) = .ok (lvalErr "Division By Zero!") := by
  refine ⟨?_, lvalEval_singleton fuel _ x rfl rfl, rfl, rfl⟩
  cases fuel with
  | zero => rfl
  | succ n =>
    have hlist : lvalEval (n + 1) (lvalSym "list") = .ok (lvalSym "list") := rfl
    have heval : lvalEval (n + 1 + 1) (lvalSym "eval") = .ok (lvalSym "eval") := rfl
    cases hx : lvalEval (n + 1) x with
    | error e =>
      have hinner : lvalEval (n + 1 + 1) (sexprOf [lvalSym "list", x]) = .error e := by
        rw [lvalEval]
        simp only [sexprOf, lvalSexpr, beq_self_eq_true, if_true, lvalEvalSexpr, evalCells,
          hlist, hx]
      show lvalEval (n + 1 + 1 + 1) _ = _
      rw [lvalEval]
      simp only [sexprOf, lvalSexpr, beq_self_eq_true, if_true, lvalEvalSexpr, evalCells, heval]
      simp only [sexprOf, lvalSexpr] at hinner
      simp only [hinner]
    | ok r =>
      have hres : isResult r := lvalEval_isResult (n + 1) x r hx
      by_cases hr : r.ltype = lvalErrType
      · have hinner : lvalEval (n + 1 + 1) (sexprOf [lvalSym "list", x]) = .ok r := by
          rw [lvalEval]
          simp only [sexprOf, lvalSexpr, beq_self_eq_true, if_true, lvalEvalSexpr, evalCells,
            hlist, hx]
          simp [firstErrIndex, lvalSym, hr, lval.lvalTake, lval.lvalPop]
        show lvalEval (n + 1 + 1 + 1) _ = _
        rw [lvalEval]
        simp only [sexprOf, lvalSexpr, beq_self_eq_true, if_true, lvalEvalSexpr, evalCells, heval]
        simp only [sexprOf, lvalSexpr] at hinner
        simp only [hinner]
        simp [firstErrIndex, lvalSym, hr, lval.lvalTake, lval.lvalPop]
      · have hinner : lvalEval (n + 1 + 1) (sexprOf [lvalSym "list", x])
            = .ok { lvalQexpr with cells := [r] } := by
          rw [lvalEval]
          simp only [sexprOf, lvalSexpr, beq_self_eq_true, if_true, lvalEvalSexpr, evalCells,
            hlist, hx]
          simp [firstErrIndex, lvalSym, hr, lval.lvalPop, lval.cellCount, builtin,
            builtinList, lvalQexpr]
        have hagain : lvalEval (n + 1 + 1)
            { ltype := lvalSexprType, num := 0, err := "", sym := "", cells := [r] }
            = .ok r := by
          rw [lvalEval_singleton (n + 1) _ r rfl rfl]
          exact lvalEval_of_isResult r hres n
        show lvalEval (n + 1 + 1 + 1) _ = _
        rw [lvalEval]
        simp only [sexprOf, lvalSexpr, beq_self_eq_true, if_true, lvalEvalSexpr, evalCells, heval]
        simp only [sexprOf, lvalSexpr] at hinner
        simp only [hinner]
        have he1 : (("eval" : String) == "list") = false := by decide
        have he2 : (("eval" : String) == "head") = false := by decide
        have he3 : (("eval" : String) == "tail") = false := by decide
        have he4 : (("eval" : String) == "join") = false := by decide
        simp [firstErrIndex, lvalSym, lvalQexpr, lval.lvalPop, lval.lvalTake, lval.cellCount,
          builtin, builtinEval, he1, he2, he3, he4, hagain]


theorem firstErrIndex_eq_none (cs : List lval) :
    ∀ i : Nat, (∀ c ∈ cs, c.ltype ≠ lvalErrType) → firstErrIndex cs i = none := by
  induction cs with
  | nil => intro i _; rfl
  | cons c rest ih =>
    intro i h
    have hc : c.ltype ≠ lvalErrType := h c (by simp)
    simp only [firstErrIndex, beq_iff_eq, hc, if_false]
    exact ih (i + 1) (fun c' hc' => h c' (List.mem_cons_of_mem _ hc'))

theorem builtinOpStep_lvalNum (op : ArithOp) (n m : Int) :
    builtinOpStep op.symbol (lvalNum n) (lvalNum m) = lvalNum (op.apply n m) := by
  cases op
  · rfl
  · have h : (("-" : String) == "+") = false := by decide
    simp [builtinOpStep, ArithOp.symbol, ArithOp.apply, lvalNum, h]
  · have h1 : (("*" : String) == "+") = false := by decide
    have h2 : (("*" : String) == "-") = false := by decide
    simp [builtinOpStep, ArithOp.symbol, ArithOp.apply, lvalNum, h1, h2]

theorem foldl_builtinOpStep_lvalNum (op : ArithOp) (vs : List Int) :
    ∀ n : Int, (vs.map lvalNum).foldl (builtinOpStep op.symbol) (lvalNum n)
      = lvalNum (vs.foldl op.apply n) := by
  induction vs with
  | nil => intro n; rfl
  | cons m rest ih =>
    intro n
    simp only [List.map_cons, List.foldl_cons, builtinOpStep_lvalNum]
    exact ih _

/-- `builtin` on an arithmetic symbol and Numbers folds the operation. -/
theorem builtin_arith (ev : lval → Except Fault lval) (op : ArithOp) (a : lval)
    (n m : Int) (vs : List Int) (ha : a.cells = lvalNum n :: lvalNum m :: vs.map lvalNum) :
    builtin ev a op.symbol = .ok (lvalNum ((m :: vs).foldl op.apply n)) := by
  have hany : a.cells.any (fun cell => cell.ltype != lvalNumType) = false := by
    apply any_ne_false_of_forall
    intro c hc
    rw [ha] at hc
    simp only [List.mem_cons, List.mem_map] at hc
    rcases hc with h | h | ⟨k, _, h⟩ <;> subst h <;> rfl
  have hop : builtinOp a op.symbol = .ok (lvalNum ((m :: vs).foldl op.apply n)) := by
    simp only [builtinOp, hany, Bool.false_eq_true, if_false, lvalPop_zero_cons a _ _ ha,
      builtinOpLoop_cellCount]
    have hcount : (({ a with cells := lvalNum m :: vs.map lvalNum } : lval).cellCount == 0)
        = false := by simp [lval.cellCount]
    simp only [hcount, Bool.and_false, Bool.false_eq_true, if_false]
    exact congrArg Except.ok (foldl_builtinOpStep_lvalNum op (m :: vs) n)
  cases op <;> exact hop


/-- An S-expression whose cells evaluate to an arithmetic symbol followed by
at least two Numbers evaluates to the fold of the operation. -/
theorem lvalEvalSexpr_arith (ev : lval → Except Fault lval) (op : ArithOp) (v : lval)
    (n m : Int) (vs : List Int)
    (hcs : evalCells ev v.cells
      = .ok (lvalSym op.symbol :: lvalNum n :: lvalNum m :: vs.map lvalNum)) :
    lvalEvalSexpr ev v = .ok (lvalNum ((m :: vs).foldl op.apply n)) := by
  have hnone : firstErrIndex (lvalSym op.symbol :: lvalNum n :: lvalNum m :: vs.map lvalNum) 0
      = none := by
    apply firstErrIndex_eq_none
    intro c hc
    simp only [List.mem_cons, List.mem_map] at hc
    rcases hc with h | h | h | ⟨k, _, h⟩ <;> subst h <;> simp [lvalSym, lvalNum]
  simp only [lvalEvalSexpr, hcs, hnone]
  have h0 : (({ v with cells := lvalSym op.symbol :: lvalNum n :: lvalNum m :: vs.map lvalNum }
      : lval).cellCount == 0) = false := by simp [lval.cellCount]
  have h1 : (({ v with cells := lvalSym op.symbol :: lvalNum n :: lvalNum m :: vs.map lvalNum }
      : lval).cellCount == 1) = false := by simp [lval.cellCount]
  have hs : ((lvalSym op.symbol).ltype != lvalSymType) = false := by simp [lvalSym]
  rw [lvalPop_zero_cons
    { v with cells := lvalSym op.symbol :: lvalNum n :: lvalNum m :: vs.map lvalNum }
    (lvalSym op.symbol) (lvalNum n :: lvalNum m :: vs.map lvalNum) rfl]
  simp only [h0, h1, Bool.false_eq_true, if_false, hs]
  exact builtin_arith ev op _ n m vs rfl

mutual
theorem arithTree_eval_aux : ∀ (t : ArithTree) (fuel : Nat), t.depth < fuel →
    lvalEval fuel t.toLval = .ok (lvalNum t.value)
  | .number n, fuel, h => by
    cases fuel with
    | zero => omega
    | succ f => rfl
  | .apply op a b rest, fuel, h => by
    cases fuel with
    | zero => omega
    | succ f =>
      simp only [ArithTree.depth] at h
      have ha := arithTree_eval_aux a f (by omega)
      have hb := arithTree_eval_aux b f (by omega)
      have hrest := arithTrees_evalCells_aux rest f (by omega)
      have hsym : lvalEval f (lvalSym op.symbol) = .ok (lvalSym op.symbol) := by
        cases f with
        | zero => omega
        | succ g => rfl
      have hcs : evalCells (lvalEval f) (ArithTree.apply op a b rest).toLval.cells
          = .ok (lvalSym op.symbol :: lvalNum a.value :: lvalNum b.value
              :: (ArithTree.values rest).map lvalNum) := by
        simp only [ArithTree.toLval, sexprOf, evalCells, hsym, ha, hb, hrest]
      have hty : (ArithTree.apply op a b rest).toLval.ltype = lvalSexprType := by
        simp [ArithTree.toLval, sexprOf, lvalSexpr]
      rw [lvalEval]
      simp only [hty, beq_self_eq_true, if_true]
      rw [lvalEvalSexpr_arith (lvalEval f) op _ a.value b.value (ArithTree.values rest) hcs]
      simp only [ArithTree.value]
theorem arithTrees_evalCells_aux : ∀ (ts : List ArithTree) (fuel : Nat),
    ArithTree.depths ts < fuel →
    evalCells (lvalEval fuel) (ArithTree.toLvals ts)
      = .ok ((ArithTree.values ts).map lvalNum)
  | [], _, _ => rfl
  | t :: ts, fuel, h => by
    simp only [ArithTree.depths] at h
    simp only [ArithTree.toLvals, ArithTree.values, evalCells,
      arithTree_eval_aux t fuel (by omega), arithTrees_evalCells_aux ts fuel (by omega),
      List.map_cons]
end

/-- C3: an arithmetic expression tree (operator "+", "-" or "*" applied to at
least two operands, each a Number or such a tree) evaluates to the Number
that is the left fold of the operator over the values of the operands in
64-bit wrapping arithmetic, whatever fuel beyond the depth of the tree is
given; `+ 1 (* 7 5) 3` is 39 and `- (* 10 10) (+ 1 1 1)` is 97. -/
theorem lvalEval_arith_tree (t : ArithTree) (k : Nat) :
    lvalEval (t.depth + 1 + k) t.toLval = .ok (lvalNum t.value) ∧
    (∀ (op : ArithOp) (a b : ArithTree) (rest : List ArithTree),
      (ArithTree.apply op a b rest).value
        = (b.value :: ArithTree.values rest).foldl op.apply a.value) ∧
    (∀ x y : Int, ArithOp.add.apply x y = wrap64 (x + y) ∧
      ArithOp.sub.apply x y = wrap64 (x - y) ∧ ArithOp.mul.apply x y = wrap64 (x * y)) ∧
    lvalEval 3 (sexprOf [lvalSym "+", lvalNum 1,
        sexprOf [lvalSym "*", lvalNum 7, lvalNum 5], lvalNum 3]) = .ok (lvalNum 39) ∧
    lvalEval 3 (sexprOf [lvalSym "-", sexprOf [lvalSym "*", lvalNum 10, lvalNum 10],
        sexprOf [lvalSym "+", lvalNum 1, lvalNum 1, lvalNum 1]]) = .ok (lvalNum 97) :=
  ⟨arithTree_eval_aux t (t.depth + 1 + k) (by omega),
   fun _ _ _ _ => by simp only [ArithTree.value],
   fun _ _ => ⟨rfl, rfl, rfl⟩, by rfl, by rfl⟩


/-! ## Self-evaluating values and argument checks -/

/-- C11: a Number, an Error and a Q-expression (whatever its cells, unevaluated
S-expressions included) are returned unchanged by `lvalEval`. -/
theorem lvalEval_self_evaluating (fuel : Nat) (v : lval)
    (hv : v.ltype = lvalNumType ∨ v.ltype = lvalErrType ∨ v.ltype = lvalQexprType) :
    lvalEval (fuel + 1) v = .ok v := by
  have hs : v.ltype ≠ lvalSexprType := by
    rcases hv with h | h | h <;> rw [h] <;> decide
  simp [lvalEval, hs]

/-- Witness for C11: `{head (list 1 2 3 4)}` evaluates to itself. -/
theorem lvalEval_self_evaluating_witness :
    lvalEval (0 + 1)
      { lvalQexpr with cells := [lvalSym "head",
          sexprOf [lvalSym "list", lvalNum 1, lvalNum 2, lvalNum 3, lvalNum 4]] }
      = .ok { lvalQexpr with cells := [lvalSym "head",
          sexprOf [lvalSym "list", lvalNum 1, lvalNum 2, lvalNum 3, lvalNum 4]] } :=
  lvalEval_self_evaluating 0
    { lvalQexpr with cells := [lvalSym "head",
        sexprOf [lvalSym "list", lvalNum 1, lvalNum 2, lvalNum 3, lvalNum 4]] }
    (Or.inr (Or.inr rfl))

theorem builtinHead_of_valid (a q c0 : lval) (rest : List lval)
    (ha : a.cells = [q]) (hq : q.ltype = lvalQexprType) (hc : q.cells = c0 :: rest) :
    builtinHead a = .ok { q with cells := [c0] } := by
  have htake : a.lvalTake 0 = .ok q := lvalTake_eq a q 0 (by simp [ha])
  have hcount : a.cellCount = 1 := by simp [lval.cellCount, ha]
  have hq0 : (q.cellCount == 0) = false := by simp [lval.cellCount, hc]
  have hloop : builtinHeadLoop q.cellCount q = .ok { q with cells := [c0] } := by
    rw [builtinHeadLoop_cellCount, hc]
    rfl
  simp [builtinHead, hcount, ha, hq, hq0, htake, hloop]

theorem builtinTail_of_valid (a q c0 : lval) (rest : List lval)
    (ha : a.cells = [q]) (hq : q.ltype = lvalQexprType) (hc : q.cells = c0 :: rest) :
    builtinTail a = .ok { q with cells := rest } := by
  have htake : a.lvalTake 0 = .ok q := lvalTake_eq a q 0 (by simp [ha])
  simp [builtinTail, lval.cellCount, ha, hq, hc, htake, lvalPop_zero_cons q c0 rest hc]

/-- When the argument check fails, `builtinHead` returns an error value. -/
theorem builtinHead_of_invalid (a : lval) (h : ¬ oneNonEmptyQexpr a) :
    ∃ msg : String, builtinHead a = .ok (lvalErr msg) := by
  match hc : a.cells with
  | [] => exact ⟨_, by simp [builtinHead, lval.cellCount, hc]; rfl⟩
  | _ :: _ :: _ => exact ⟨_, by simp [builtinHead, lval.cellCount, hc]; rfl⟩
  | [q] =>
    by_cases hq : q.ltype = lvalQexprType
    · have hq0 : q.cells = [] := by
        by_contra hne
        exact h ⟨q, hc, hq, hne⟩
      exact ⟨_, by simp [builtinHead, lval.cellCount, hc, hq, hq0]; rfl⟩
    · exact ⟨_, by simp [builtinHead, lval.cellCount, hc, hq]; rfl⟩

/-- When the argument check fails, `builtinTail` returns an error value. -/
theorem builtinTail_of_invalid (a : lval) (h : ¬ oneNonEmptyQexpr a) :
    ∃ msg : String, builtinTail a = .ok (lvalErr msg) := by
  match hc : a.cells with
  | [] => exact ⟨_, by simp [builtinTail, lval.cellCount, hc]; rfl⟩
  | _ :: _ :: _ => exact ⟨_, by simp [builtinTail, lval.cellCount, hc]; rfl⟩
  | [q] =>
    by_cases hq : q.ltype = lvalQexprType
    · have hq0 : q.cells = [] := by
        by_contra hne
        exact h ⟨q, hc, hq, hne⟩
      exact ⟨_, by simp [builtinTail, lval.cellCount, hc, hq, hq0]; rfl⟩
    · exact ⟨_, by simp [builtinTail, lval.cellCount, hc, hq]; rfl⟩

/-- C12: `builtinHead` always returns a value, and that value is an Error
exactly when the argument list is not one non-empty Q-expression (wrong count,
wrong type, or `{}`); otherwise it is a Q-expression. The same holds for
`builtinTail`. -/
theorem builtinHead_builtinTail_error_iff (a : lval) :
    (∃ r, builtinHead a = .ok r ∧
      (r.ltype = lvalErrType ↔ ¬ oneNonEmptyQexpr a) ∧
      (r.ltype ≠ lvalErrType → r.ltype = lvalQexprType)) ∧
    (∃ r, builtinTail a = .ok r ∧
      (r.ltype = lvalErrType ↔ ¬ oneNonEmptyQexpr a) ∧
      (r.ltype ≠ lvalErrType → r.ltype = lvalQexprType)) := by
  by_cases h : oneNonEmptyQexpr a
  · obtain ⟨q, ha, hq, hne⟩ := h
    have hvalid : oneNonEmptyQexpr a := ⟨q, ha, hq, hne⟩
    cases hc : q.cells with
    | nil => exact absurd hc hne
    | cons c0 rest =>
      have hnot : ¬ (q.ltype = lvalErrType) := by rw [hq]; decide
      refine ⟨⟨_, builtinHead_of_valid a q c0 rest ha hq hc, ?_, fun _ => hq⟩,
        ⟨_, builtinTail_of_valid a q c0 rest ha hq hc, ?_, fun _ => hq⟩⟩
      · exact ⟨fun he => absurd he hnot, fun hn => absurd hvalid hn⟩
      · exact ⟨fun he => absurd he hnot, fun hn => absurd hvalid hn⟩
  · obtain ⟨m1, h1⟩ := builtinHead_of_invalid a h
    obtain ⟨m2, h2⟩ := builtinTail_of_invalid a h
    refine ⟨⟨_, h1, ?_, ?_⟩, ⟨_, h2, ?_, ?_⟩⟩
    · exact ⟨fun _ => h, fun _ => rfl⟩
    · intro hn; exact absurd rfl hn
    · exact ⟨fun _ => h, fun _ => rfl⟩
    · intro hn; exact absurd rfl hn

/-! ## Error messages and symbols -/

/-- Whenever the first evaluated cell of an S-expression with at least two
error-free cells is not a symbol, the message is the fixed text. -/
theorem lvalEvalSexpr_not_symbol (ev : lval → Except Fault lval) (v f c : lval)
    (rest : List lval) (hcs : evalCells ev v.cells = .ok (f :: c :: rest))
    (hne : ∀ x ∈ f :: c :: rest, x.ltype ≠ lvalErrType) (hf : f.ltype ≠ lvalSymType) :
    lvalEvalSexpr ev v = .ok (lvalErr "S-expression does not start with symbol!") := by
  have hnone := firstErrIndex_eq_none (f :: c :: rest) 0 hne
  simp only [lvalEvalSexpr, hcs, hnone]
  rw [lvalPop_zero_cons { v with cells := f :: c :: rest } f (c :: rest) rfl]
  simp [lval.cellCount, hf]

/-- C13: on `(1 2 3)` the evaluator returns the error whose message is
"S-expression does not start with symbol!"; the message does not name the type
of the first cell, so it is not the text ending in "got: Number". -/
theorem lvalEvalSexpr_not_symbol_message :
    lvalEvalSexpr (lvalEval 1) (sexprOf [lvalNum 1, lvalNum 2, lvalNum 3])
      = .ok (lvalErr "S-expression does not start with symbol!") ∧
    lvalEval 3 (sexprOf [sexprOf [lvalNum 1, lvalNum 2, lvalNum 3]])
      = .ok (lvalErr "S-expression does not start with symbol!") ∧
    (lvalErr "S-expression does not start with symbol!").err
      ≠ "S-expression does not start with symbol! got: Number" :=
  ⟨by rfl, by rfl, by decide⟩

/-- Whenever some argument is not a Number, the message of `builtinOp` is the
fixed text. -/
theorem builtinOp_non_number (a : lval) (op : String)
    (h : ∃ c ∈ a.cells, c.ltype ≠ lvalNumType) :
    builtinOp a op = .ok (lvalErr "Cannot operate on non-number!") := by
  have hany : a.cells.any (fun cell => cell.ltype != lvalNumType) = true := by
    obtain ⟨c, hc, hne⟩ := h
    exact List.any_eq_true.mpr ⟨c, hc, by simpa using hne⟩
  simp [builtinOp, hany]

/-- C14: on `+ 1 {5 6 7}` and on `(/ ())` the evaluator returns the error
whose message is "Cannot operate on non-number!"; the message does not name
the type of the offending argument. -/
theorem builtinOp_non_number_message :
    builtinOp (sexprOf [lvalNum 1,
        { lvalQexpr with cells := [lvalNum 5, lvalNum 6, lvalNum 7] }]) "+"
      = .ok (lvalErr "Cannot operate on non-number!") ∧
    lvalEval 2 (sexprOf [lvalSym "+", lvalNum 1,
        { lvalQexpr with cells := [lvalNum 5, lvalNum 6, lvalNum 7] }])
      = .ok (lvalErr "Cannot operate on non-number!") ∧
    lvalEval 3 (sexprOf [sexprOf [lvalSym "/", sexprOf []]])
      = .ok (lvalErr "Cannot operate on non-number!") ∧
    (lvalErr "Cannot operate on non-number!").err
      ≠ "Cannot operate on non-number: Q-Expression" ∧
    (lvalErr "Cannot operate on non-number!").err
      ≠ "Cannot operate on non-number: S-Expression" :=
  ⟨by rfl, by rfl, by rfl, by decide, by decide⟩

/-- C15: `lvalEval` returns a Symbol as it is: there is no lookup, so no
"Unbound Symbol" error; the top-level input `hello` evaluates to the symbol
`hello`. -/
theorem lvalEval_symbol_unchanged (fuel : Nat) (s : String) :
    lvalEval (fuel + 1) (lvalSym s) = .ok (lvalSym s) ∧
    (lvalSym s).ltype ≠ lvalErrType ∧
    lvalEval 2 (sexprOf [lvalSym "hello"]) = .ok (lvalSym "hello") :=
  ⟨rfl, by simp [lvalSym], by rfl⟩

/-! ## Exponentiation -/

/-- C18 (as stated) fails: `^ 2 -1` is not the Number 0. -/
theorem evalOp_pow_negative_not_zero :
    ¬ (evalOp (lvalNum 2) "^" (lvalNum (-1)) = .ok (lvalNum 0)) := by
  intro h
  have h1 : evalOp (lvalNum 2) "^" (lvalNum (-1)) = .ok (lvalNum 1) := by rfl
  rw [h1] at h
  simp [lvalNum] at h

/-- C18 (amended): for Numbers `x` and `y` with `y < 0`, `evalOp` with "^" or
"pow" returns the Number 1, the result of `big.Int.Exp` with a nil modulus on a
non-positive exponent. -/
theorem evalOp_pow_negative (x y : lval)
    (hx : x.ltype = lvalNumType) (_hy : y.ltype = lvalNumType) (hneg : y.num < 0) :
    evalOp x "^" y = .ok (lvalNum 1) ∧ evalOp x "pow" y = .ok (lvalNum 1) := by
  have hxe : (x.ltype == lvalErrType) = false := by rw [hx]; rfl
  have hb : bigExp x.num y.num = 1 := by
    have : y.num ≤ 0 := by omega
    simp [bigExp, this]
  have hw : wrap64 1 = 1 := by decide
  have c1 : stringsContains "^" "+" = false := by decide
  have c2 : stringsContains "^" "add" = false := by decide
  have c3 : stringsContains "^" "-" = false := by decide
  have c4 : stringsContains "^" "sub" = false := by decide
  have c5 : stringsContains "^" "*" = false := by decide
  have c6 : stringsContains "^" "mul" = false := by decide
  have c7 : stringsContains "^" "/" = false := by decide
  have c8 : stringsContains "^" "div" = false := by decide
  have c9 : stringsContains "^" "%" = false := by decide
  have c10 : stringsContains "^" "mod" = false := by decide
  have c11 : stringsContains "^" "^" = true := by decide
  have d1 : stringsContains "pow" "+" = false := by decide
  have d2 : stringsContains "pow" "add" = false := by decide
  have d3 : stringsContains "pow" "-" = false := by decide
  have d4 : stringsContains "pow" "sub" = false := by decide
  have d5 : stringsContains "pow" "*" = false := by decide
  have d6 : stringsContains "pow" "mul" = false := by decide
  have d7 : stringsContains "pow" "/" = false := by decide
  have d8 : stringsContains "pow" "div" = false := by decide
  have d9 : stringsContains "pow" "%" = false := by decide
  have d10 : stringsContains "pow" "mod" = false := by decide
  have d11 : stringsContains "pow" "pow" = true := by decide
  constructor
  · simp [evalOp, hxe, hb, hw, c1, c2, c3, c4, c5, c6, c7, c8, c9, c10, c11]
  · simp [evalOp, hxe, hb, hw, d1, d2, d3, d4, d5, d6, d7, d8, d9, d10, d11]

/-- Witness for C18 (amended): `^ 2 -1` is 1. -/
theorem evalOp_pow_negative_witness :
    evalOp (lvalNum 2) "^" (lvalNum (-1)) = .ok (lvalNum 1) ∧
    evalOp (lvalNum 2) "pow" (lvalNum (-1)) = .ok (lvalNum 1) :=
  evalOp_pow_negative (lvalNum 2) (lvalNum (-1)) rfl rfl (by decide)

/-! ## Idempotence -/

/-- C20: a value returned by `lvalEval` is never a non-empty S-expression, and
evaluating it again (with any positive fuel) returns it unchanged. -/
theorem lvalEval_idempotent (fuel : Nat) (v r : lval) (h : lvalEval fuel v = .ok r) :
    (∀ k : Nat, lvalEval (k + 1) r = .ok r) ∧
    (r.ltype ≠ lvalSexprType ∨ r.cells = []) :=
  ⟨fun k => lvalEval_of_isResult r (lvalEval_isResult fuel v r h) k,
   lvalEval_isResult fuel v r h⟩

/-- Witness for C20: `(list (+ 1 2) 4)` evaluates to `{3 4}`, which evaluates
to itself. -/
theorem lvalEval_idempotent_witness :
    (∀ k : Nat, lvalEval (k + 1) { lvalQexpr with cells := [lvalNum 3, lvalNum 4] }
      = .ok { lvalQexpr with cells := [lvalNum 3, lvalNum 4] }) ∧
    (({ lvalQexpr with cells := [lvalNum 3, lvalNum 4] } : lval).ltype
        ≠ lvalSexprType ∨
      ({ lvalQexpr with cells := [lvalNum 3, lvalNum 4] } : lval).cells
        = []) :=
  lvalEval_idempotent 3
    (sexprOf [lvalSym "list", sexprOf [lvalSym "+", lvalNum 1, lvalNum 2], lvalNum 4])
    { lvalQexpr with cells := [lvalNum 3, lvalNum 4] } (by rfl)

/-! ## Dispatch of `builtin` -/

theorem containsChars_ops (l : List Char) (h : containsChars ['+', '-', '/', '*'] l = true) :
    l ∈ [[], ['+'], ['-'], ['/'], ['*'], ['+', '-'], ['-', '/'], ['/', '*'],
      ['+', '-', '/'], ['-', '/', '*'], ['+', '-', '/', '*']] := by
  match l with
  | [] => simp
  | [a] =>
    simp [containsChars, List.isPrefixOf] at h
    simp
    tauto
  | [a, b] =>
    simp [containsChars, List.isPrefixOf] at h
    simp
    tauto
  | [a, b, c] =>
    simp [containsChars, List.isPrefixOf] at h
    simp
    tauto
  | [a, b, c, d] =>
    simp [containsChars, List.isPrefixOf] at h
    simp
    tauto
  | a :: b :: c :: d :: e :: rest =>
    simp [containsChars, List.isPrefixOf] at h

theorem stringsContains_ops (name : String) (h : stringsContains "+-/*" name = true) :
    name ∈ opSubstrings := by
  have hl := containsChars_ops name.data h
  rcases name with ⟨l⟩
  simp only [List.mem_cons, List.mem_singleton, List.not_mem_nil, or_false] at hl
  simp only [opSubstrings, List.mem_cons, List.mem_singleton, List.not_mem_nil, or_false]
  rcases hl with h | h | h | h | h | h | h | h | h | h | h <;> subst h <;> decide

/-- C19 (as stated) fails: the names "+-" and "" are not rejected; `builtin`
hands them to `builtinOp`, which returns its first argument. -/
theorem builtin_accepts_operator_substrings :
    builtin (lvalEval 0) (sexprOf [lvalNum 1, lvalNum 2]) "+-" = .ok (lvalNum 1) ∧
    builtin (lvalEval 0) (sexprOf [lvalNum 1, lvalNum 2]) "" = .ok (lvalNum 1) ∧
    (lvalNum 1).ltype ≠ lvalErrType ∧
    "+-" ∉ ["list", "head", "tail", "join", "eval", "+", "-", "*", "/"] ∧
    "" ∉ ["list", "head", "tail", "join", "eval", "+", "-", "*", "/"] :=
  ⟨by rfl, by rfl, by decide, by decide, by decide⟩

/-- C19 (amended): `builtin` returns the error "Unknown Function!" for every
name that is neither one of "list", "head", "tail", "join", "eval" nor a
substring of the four-character operator string; each of the eleven
substrings (the empty name and two- to four-character ones included) is
accepted by the test and handed to `builtinOp`. -/
theorem builtin_unknown_function (ev : lval → Except Fault lval) (a : lval) (name : String)
    (hname : name ∉ ["list", "head", "tail", "join", "eval"])
    (hsub : name ∉ opSubstrings) :
    builtin ev a name = .ok (lvalErr "Unknown Function!") ∧
    (∀ s ∈ opSubstrings, stringsContains "+-/*" s = true ∧ builtin ev a s = builtinOp a s) := by
  constructor
  · have hc : stringsContains "+-/*" name = false := by
      cases hb : stringsContains "+-/*" name with
      | false => rfl
      | true => exact absurd (stringsContains_ops name hb) hsub
    simp only [List.mem_cons, List.mem_singleton, List.not_mem_nil, or_false, not_or] at hname
    obtain ⟨h1, h2, h3, h4, h5⟩ := hname
    simp [builtin, h1, h2, h3, h4, h5, hc]
  · intro s hs
    simp only [opSubstrings, List.mem_cons, List.mem_singleton, List.not_mem_nil,
      or_false] at hs
    rcases hs with h | h | h | h | h | h | h | h | h | h | h <;> subst h <;>
      exact ⟨by decide, rfl⟩

/-- Witness for C19 (amended): the name "len" is rejected. -/
theorem builtin_unknown_function_witness :
    builtin (lvalEval 0) (sexprOf [lvalNum 1]) "len" = .ok (lvalErr "Unknown Function!") :=
  (builtin_unknown_function (lvalEval 0) (sexprOf [lvalNum 1]) "len"
    (by decide) (by decide)).1

/-! ## The printer -/

theorem formatInt_eq_toString (x : Int) : formatInt x = toString x := by
  cases x with
  | ofNat m =>
    have h : ¬ ((Int.ofNat m) < 0) := by simp
    simp only [formatInt, h, if_false]
    rfl
  | negSucc m =>
    have h : (Int.negSucc m) < 0 := Int.negSucc_lt_zero m
    simp only [formatInt, h, if_true]
    rfl

theorem intercalate_go_eq (sep : String) :
    ∀ (l : List String) (acc : String),
      String.intercalate.go acc sep l = acc ++ String.intercalate.go "" sep l := by
  intro l
  induction l with
  | nil => intro acc; simp [String.intercalate.go]
  | cons b bs ih =>
    intro acc
    simp only [String.intercalate.go]
    rw [ih (acc ++ sep ++ b), ih ("" ++ sep ++ b)]
    simp [String.append_assoc]

theorem intercalate_cons_cons (sep a b : String) (l : List String) :
    sep.intercalate (a :: b :: l) = a ++ sep ++ sep.intercalate (b :: l) := by
  simp only [String.intercalate, String.intercalate.go]
  rw [intercalate_go_eq sep l (a ++ sep ++ b), intercalate_go_eq sep l b]
  simp [String.append_assoc]

mutual
theorem lvalString_eq_aux : ∀ v : lval, v.wellTagged = true → v.lvalString = printValue v
  | ⟨ltype, num, err, sym, cells⟩, h => by
    simp only [lval.wellTagged, Bool.and_eq_true, decide_eq_true_eq] at h
    obtain ⟨ht, hc⟩ := h
    have hloop := fun s => lvalExprStringLoop_eq_aux cells 0 cells.length s hc (by simp)
    have hcases : ltype = 0 ∨ ltype = 1 ∨ ltype = 2 ∨ ltype = 3 ∨ ltype = 4 := by
      simp only [lvalErrType] at ht
      omega
    rcases hcases with h0 | h0 | h0 | h0 | h0 <;> subst h0
    · simp [lval.lvalString, printValue, formatInt_eq_toString]
    · simp [lval.lvalString, printValue]
    · simp [lval.lvalString, printValue, hloop, String.append_assoc]
    · simp [lval.lvalString, printValue, hloop, String.append_assoc]
    · simp [lval.lvalString, printValue]
theorem lvalExprStringLoop_eq_aux : ∀ (cs : List lval) (i count : Nat) (s : String),
    wellTaggedCells cs = true → count = i + cs.length →
    lvalExprStringLoop cs i count s = s ++ " ".intercalate (printValues cs)
  | [], _, _, s, _, _ => by simp [lvalExprStringLoop, printValues, String.intercalate]
  | c :: rest, i, count, s, h, hn => by
    simp only [wellTaggedCells, Bool.and_eq_true] at h
    obtain ⟨h1, h2⟩ := h
    have hc := lvalString_eq_aux c h1
    have ih := fun s => lvalExprStringLoop_eq_aux rest (i + 1) count s h2
      (by simp only [List.length_cons] at hn; omega)
    simp only [lvalExprStringLoop, hc, ih]
    cases rest with
    | nil =>
      have hlt : ¬ (i < count - 1) := by
        simp only [List.length_cons, List.length_nil] at hn
        omega
      simp [hlt, printValues, String.intercalate, String.intercalate.go]
    | cons d rest2 =>
      have hlt : i < count - 1 := by
        simp only [List.length_cons] at hn
        omega
      simp only [hlt, if_true, printValues, intercalate_cons_cons]
      simp [String.append_assoc]
end

/-- C16: for a value all of whose nodes carry one of the five tags,
`lvalString` is the reference printer: the signed decimal numeral of a Number,
the name of a Symbol, "Error: " and the message of an Error, and for a list the
printed cells joined by one space between the delimiters; the empty lists print
as "()" and as the two braces. -/
theorem lvalString_eq_printValue (v : lval) (h : v.wellTagged = true) :
    v.lvalString = printValue v ∧
    (v.ltype = lvalSexprType →
      printValue v = "(" ++ " ".intercalate (printValues v.cells) ++ ")") ∧
    (v.ltype = lvalQexprType →
      printValue v = "\x7b" ++ " ".intercalate (printValues v.cells) ++ "\x7d") ∧
    lvalSexpr.lvalString = "()" ∧ lvalQexpr.lvalString = "\x7b\x7d" := by
  refine ⟨lvalString_eq_aux v h, ?_, ?_, by decide, by decide⟩
  · intro hs
    rcases v with ⟨t, n, e, s, cs⟩
    simp only at hs
    subst hs
    simp [printValue]
  · intro hq
    rcases v with ⟨t, n, e, s, cs⟩
    simp only at hq
    subst hq
    simp [printValue]

/-- Witness for C16: `(+ 2 (* 7 6) -5 {})`. -/
theorem lvalString_eq_printValue_witness :
    (sexprOf [lvalSym "+", lvalNum 2, sexprOf [lvalSym "*", lvalNum 7, lvalNum 6],
        lvalNum (-5), lvalQexpr]).lvalString
      = printValue (sexprOf [lvalSym "+", lvalNum 2,
          sexprOf [lvalSym "*", lvalNum 7, lvalNum 6], lvalNum (-5), lvalQexpr]) ∧
    printValue (sexprOf [lvalSym "+", lvalNum 2,
        sexprOf [lvalSym "*", lvalNum 7, lvalNum 6], lvalNum (-5), lvalQexpr])
      = "(+ 2 (* 7 6) -5 \x7b\x7d)" :=
  ⟨(lvalString_eq_printValue (sexprOf [lvalSym "+", lvalNum 2,
      sexprOf [lvalSym "*", lvalNum 7, lvalNum 6], lvalNum (-5), lvalQexpr]) rfl).1,
   by decide⟩

/-! ## The reader -/

/-- The loop of `lvalRead` on a non-nil `x`: the values read from the kept
children are appended, in order. -/
theorem lvalReadLoop_eq_append (children : List MpcAst) :
    ∀ (v : lval) (rs : List lval),
      (children.filter (fun c => !isSkippedChild c)).map lvalRead
        = rs.map (fun r => Except.ok (some r)) →
      lvalReadLoop children (some v) = .ok (some { v with cells := v.cells ++ rs }) := by
  induction children with
  | nil =>
    intro v rs h
    have hrs : rs = [] := by
      cases rs with
      | nil => rfl
      | cons r rs => simp at h
    subst hrs
    simp [lvalReadLoop]
    exact (lval_with_cells_self v v.cells rfl).symm
  | cons c rest ih =>
    intro v rs h
    by_cases hskip : isSkippedChild c = true
    · simp only [List.filter, hskip, Bool.not_true] at h
      simp only [lvalReadLoop, hskip, if_true]
      exact ih v rs h
    · have hskip2 : isSkippedChild c = false := by simpa using hskip
      simp only [List.filter, hskip2, Bool.not_false, List.map_cons] at h
      cases rs with
      | nil => simp at h
      | cons r rs2 =>
        simp only [List.map_cons, List.cons.injEq] at h
        obtain ⟨hc, hrest⟩ := h
        simp only [lvalReadLoop, hskip2, Bool.false_eq_true, if_false, hc]
        rw [ih (v.lvalAdd r) rs2 hrest]
        simp [lval.lvalAdd]

/-- The loop of `lvalRead` never turns a non-nil `x` into nil. -/
theorem lvalReadLoop_isSome (children : List MpcAst) :
    ∀ (v : lval) (o : Option lval), lvalReadLoop children (some v) = .ok o →
      ∃ r, o = some r := by
  induction children with
  | nil =>
    intro v o h
    simp [lvalReadLoop] at h
    exact ⟨v, h.symm⟩
  | cons c rest ih =>
    intro v o h
    by_cases hskip : isSkippedChild c = true
    · simp only [lvalReadLoop, hskip, if_true] at h
      exact ih v o h
    · have hskip2 : isSkippedChild c = false := by simpa using hskip
      simp only [lvalReadLoop, hskip2, Bool.false_eq_true, if_false] at h
      cases hc : lvalRead c with
      | error e => simp [hc] at h
      | ok oc =>
        cases oc with
        | none =>
          simp only [hc] at h
          exact ih v o h
        | some r =>
          simp only [hc] at h
          exact ih _ o h

/-- A node with a recognised tag is never read as nil. -/
theorem lvalRead_isSome (t : MpcAst) (o : Option lval) (hrec : recognisedTag t.tag = true)
    (h : lvalRead t = .ok o) : ∃ r, o = some r := by
  rcases t with ⟨tag, contents, children⟩
  simp only [recognisedTag, Bool.or_eq_true, beq_iff_eq] at hrec
  rw [lvalRead] at h
  split at h
  · exact ⟨_, by simpa using h.symm⟩
  · split at h
    · exact ⟨_, by simpa using h.symm⟩
    · rename_i hn hs
      by_cases h1 : tag = ">"
      · simp only [h1, beq_self_eq_true, if_true] at h
        exact lvalReadLoop_isSome children _ o h
      · by_cases h2 : stringsContains tag "sexpr" = true
        · simp only [h1, beq_iff_eq, h2, if_true, if_false] at h
          exact lvalReadLoop_isSome children _ o h
        · have h3 : stringsContains tag "qexpr" = true := by
            rcases hrec with (((h | h) | h) | h) | h
            · exact absurd h hn
            · exact absurd h hs
            · exact absurd h h1
            · exact absurd h h2
            · exact h
          simp only [h1, beq_iff_eq, h2, h3, if_true, if_false] at h
          exact lvalReadLoop_isSome children _ o h

theorem lvalRead_all_some (l : List MpcAst) :
    ∀ os : List (Option lval), l.all (fun c => recognisedTag c.tag) = true →
      l.map lvalRead = os.map Except.ok → ∃ rs : List lval, os = rs.map some := by
  induction l with
  | nil =>
    intro os _ h
    cases os with
    | nil => exact ⟨[], rfl⟩
    | cons o os => simp at h
  | cons c rest ih =>
    intro os hall h
    cases os with
    | nil => simp at h
    | cons o os2 =>
      simp only [List.map_cons, List.cons.injEq] at h
      simp only [List.all_cons, Bool.and_eq_true] at hall
      obtain ⟨r, hr⟩ := lvalRead_isSome c o hall.1 h.1
      obtain ⟨rs, hrs⟩ := ih os2 hall.2 h.2
      exact ⟨r :: rs, by simp [hr, hrs]⟩

/-- C17 (as stated) fails: a tag containing "qexpr" is read as an S-expression
when it also contains "sexpr", the test made first; and a child with a
recognised tag can itself fail to be read, a non-nil value being added to the
nil pointer created for an unrecognised tag. -/
theorem lvalRead_qexpr_tag_not_qexpr :
    lvalRead ⟨"sexpr|qexpr", "", []⟩ = .ok (some lvalSexpr) ∧
    stringsContains "sexpr|qexpr" "qexpr" = true ∧
    stringsContains "sexpr|qexpr" "number" = false ∧
    stringsContains "sexpr|qexpr" "symbol" = false ∧
    lvalSexpr.ltype ≠ lvalQexprType ∧
    lvalRead ⟨">", "", [⟨"sexpr", "", [⟨"string", "", [⟨"number", "1", []⟩]⟩]⟩]⟩
      = .error .nilDereference ∧
    recognisedTag "sexpr" = true :=
  ⟨by rfl, by decide, by decide, by decide, by decide, by rfl, by decide⟩

/-- C17 (amended): for a node whose tag contains neither "number" nor "symbol",
whose kept children (those whose contents are not a parenthesis or a brace and
whose tag is not "regex") all carry a recognised tag and are read, in order, to
`os`: every element of `os` is a value, and `lvalRead` returns the
S-expression with exactly these values as cells when the tag is ">" or
contains "sexpr", and the Q-expression with these cells when the tag contains
"qexpr", is not ">" and does not contain "sexpr". -/
theorem lvalRead_list_node (t : MpcAst) (os : List (Option lval))
    (hnum : stringsContains t.tag "number" = false)
    (hsym : stringsContains t.tag "symbol" = false)
    (hrec : (keptChildren t).all (fun c => recognisedTag c.tag) = true)
    (hread : (keptChildren t).map lvalRead = os.map Except.ok) :
    ∃ rs : List lval, os = rs.map some ∧
      ((t.tag = ">" ∨ stringsContains t.tag "sexpr" = true) →
        lvalRead t = .ok (some { lvalSexpr with cells := rs })) ∧
      ((t.tag ≠ ">" ∧ stringsContains t.tag "sexpr" = false ∧
          stringsContains t.tag "qexpr" = true) →
        lvalRead t = .ok (some { lvalQexpr with cells := rs })) := by
  obtain ⟨rs, hrs⟩ := lvalRead_all_some (keptChildren t) os hrec hread
  refine ⟨rs, hrs, ?_, ?_⟩
  · intro htag
    rcases t with ⟨tag, contents, children⟩
    simp only [keptChildren] at hread
    simp only at hnum hsym htag
    have hmap : (children.filter (fun c => !isSkippedChild c)).map lvalRead
        = rs.map (fun r => Except.ok (some r)) := by
      rw [hread, hrs, List.map_map]
      rfl
    rw [lvalRead]
    simp only [hnum, hsym, Bool.false_eq_true, if_false]
    have hx : (if (tag == ">") = true then some lvalSexpr
        else if stringsContains tag "sexpr" = true then some lvalSexpr
        else if stringsContains tag "qexpr" = true then some lvalQexpr else none)
        = some lvalSexpr := by
      rcases htag with h | h
      · simp [h]
      · simp [h]
    rw [hx, lvalReadLoop_eq_append children lvalSexpr rs hmap]
    simp [lvalSexpr]
  · intro htag
    obtain ⟨h1, h2, h3⟩ := htag
    rcases t with ⟨tag, contents, children⟩
    simp only [keptChildren] at hread
    simp only at hnum hsym h1 h2 h3
    have hmap : (children.filter (fun c => !isSkippedChild c)).map lvalRead
        = rs.map (fun r => Except.ok (some r)) := by
      rw [hread, hrs, List.map_map]
      rfl
    rw [lvalRead]
    simp only [hnum, hsym, Bool.false_eq_true, if_false]
    have hx : (if (tag == ">") = true then some lvalSexpr
        else if stringsContains tag "sexpr" = true then some lvalSexpr
        else if stringsContains tag "qexpr" = true then some lvalQexpr else none)
        = some lvalQexpr := by
      simp [h1, h2, h3]
    rw [hx, lvalReadLoop_eq_append children lvalQexpr rs hmap]
    simp [lvalQexpr]

/-- Witness for C17 (amended): the tree of `+ 2 (* 7 6) (* 2 5)` reads as
`(+ 2 (* 7 6) (* 2 5))`. -/
theorem lvalRead_list_node_witness :
    ∃ rs : List lval,
      [some (lvalSym "+"), some (lvalNum 2),
        some (sexprOf [lvalSym "*", lvalNum 7, lvalNum 6]),
        some (sexprOf [lvalSym "*", lvalNum 2, lvalNum 5])] = rs.map some ∧
      ((exampleTree.tag = ">" ∨ stringsContains exampleTree.tag "sexpr" = true) →
        lvalRead exampleTree = .ok (some { lvalSexpr with cells := rs })) ∧
      ((exampleTree.tag ≠ ">" ∧ stringsContains exampleTree.tag "sexpr" = false ∧
          stringsContains exampleTree.tag "qexpr" = true) →
        lvalRead exampleTree = .ok (some { lvalQexpr with cells := rs })) :=
  lvalRead_list_node exampleTree
    [some (lvalSym "+"), some (lvalNum 2),
      some (sexprOf [lvalSym "*", lvalNum 7, lvalNum 6]),
      some (sexprOf [lvalSym "*", lvalNum 2, lvalNum 5])]
    (by decide) (by decide) (by decide) (by rfl)

/-- The value read from the example tree prints as the test expects. -/
theorem lvalRead_exampleTree_string :
    (lvalRead exampleTree).map (fun o => o.map lval.lvalString)
      = .ok (some "(+ 2 (* 7 6) (* 2 5))") := by
  rfl


/-! ## Node counts -/

theorem lval_size_eq (v : lval) : v.size = 1 + sizeCells v.cells := by
  cases v
  simp [lval.size]

theorem lval_size_pos (v : lval) : 1 ≤ v.size := by
  rw [lval_size_eq]
  omega

theorem lvalErr_size (s : String) : (lvalErr s).size = 1 := by
  simp [lval_size_eq, lvalErr, sizeCells]

theorem sizeCells_append (xs ys : List lval) :
    sizeCells (xs ++ ys) = sizeCells xs + sizeCells ys := by
  induction xs with
  | nil => simp [sizeCells]
  | cons x xs ih =>
    show sizeCells (x :: (xs ++ ys)) = sizeCells (x :: xs) + sizeCells ys
    simp only [sizeCells, ih]
    omega

theorem sizeCells_take_le (n : Nat) (cs : List lval) :
    sizeCells (cs.take n) ≤ sizeCells cs := by
  induction cs generalizing n with
  | nil => simp [sizeCells]
  | cons c cs ih =>
    cases n with
    | zero => simp [sizeCells]
    | succ m =>
      simp only [List.take_succ_cons, sizeCells]
      have := ih m
      omega

theorem sizeCells_getElem_le (cs : List lval) :
    ∀ (i : Nat) (c : lval), cs[i]? = some c → c.size ≤ sizeCells cs := by
  induction cs with
  | nil => intro i c h; simp at h
  | cons x xs ih =>
    intro i c h
    cases i with
    | zero =>
      simp at h
      subst h
      simp only [sizeCells]
      omega
    | succ j =>
      simp at h
      have := ih j c h
      simp only [sizeCells]
      omega

theorem sizeCells_mem_le (cs : List lval) (c : lval) (h : c ∈ cs) : c.size ≤ sizeCells cs := by
  obtain ⟨i, hi⟩ := List.getElem?_of_mem h
  exact sizeCells_getElem_le cs i c hi

theorem sizeCells_flatten_le (qs : List lval) :
    sizeCells ((qs.map lval.cells).flatten) + qs.length ≤ sizeCells qs := by
  induction qs with
  | nil => simp [sizeCells]
  | cons q qs ih =>
    simp only [List.map_cons, List.flatten_cons, sizeCells_append, sizeCells, List.length_cons]
    have := lval_size_eq q
    omega

/-! ## Every builtin returns, without adding nodes -/

theorem returnsWithin_lvalErr (s : String) (bound : Nat) (h : 1 ≤ bound) :
    returnsWithin (.ok (lvalErr s)) bound :=
  ⟨lvalErr s, rfl, by rw [lvalErr_size]; exact h⟩

theorem returnsWithin_mono (res : Except Fault lval) (b1 b2 : Nat) (hb : b1 ≤ b2)
    (h : returnsWithin res b1) : returnsWithin res b2 := by
  obtain ⟨r, hr, hs⟩ := h
  exact ⟨r, hr, Nat.le_trans hs hb⟩

theorem builtinOpStep_size (op : String) (x y : lval) :
    (builtinOpStep op x y).size ≤ x.size := by
  unfold builtinOpStep
  split_ifs <;> simp [lval_size_eq, lvalErr, sizeCells]

theorem foldl_builtinOpStep_size (op : String) (rest : List lval) :
    ∀ x : lval, (rest.foldl (builtinOpStep op) x).size ≤ x.size := by
  induction rest with
  | nil => intro x; exact Nat.le_refl _
  | cons y rest ih =>
    intro x
    rw [List.foldl_cons]
    exact Nat.le_trans (ih _) (builtinOpStep_size op x y)

theorem builtinOp_total (a : lval) (op : String) (h : a.cells ≠ []) :
    returnsWithin (builtinOp a op) a.size := by
  cases hc : a.cells with
  | nil => exact absurd hc h
  | cons x rest =>
    have hxa : x.size ≤ a.size := by
      rw [lval_size_eq a, hc]
      simp only [sizeCells]
      omega
    by_cases hany : a.cells.any (fun cell => cell.ltype != lvalNumType) = true
    · simp only [builtinOp, hany, if_true]
      exact returnsWithin_lvalErr _ _ (lval_size_pos a)
    · simp only [builtinOp, hany, Bool.false_eq_true, if_false, lvalPop_zero_cons a x rest hc,
        builtinOpLoop_cellCount]
      refine ⟨_, rfl, Nat.le_trans (foldl_builtinOpStep_size op rest _) ?_⟩
      split_ifs
      · have hsame : ({ x with num := wrap64 (-x.num) } : lval).size = x.size := by
          simp [lval_size_eq]
        rw [hsame]
        exact hxa
      · exact hxa

theorem builtinHead_total (a : lval) : returnsWithin (builtinHead a) a.size := by
  by_cases h : oneNonEmptyQexpr a
  · obtain ⟨q, ha, hq, hne⟩ := h
    cases hc : q.cells with
    | nil => exact absurd hc hne
    | cons c0 rest =>
      refine ⟨_, builtinHead_of_valid a q c0 rest ha hq hc, ?_⟩
      rw [lval_size_eq a, ha]
      simp only [sizeCells, lval_size_eq q, hc, lval_size_eq { q with cells := [c0] }]
      omega
  · obtain ⟨msg, hm⟩ := builtinHead_of_invalid a h
    rw [hm]
    exact returnsWithin_lvalErr _ _ (lval_size_pos a)

theorem builtinTail_total (a : lval) : returnsWithin (builtinTail a) a.size := by
  by_cases h : oneNonEmptyQexpr a
  · obtain ⟨q, ha, hq, hne⟩ := h
    cases hc : q.cells with
    | nil => exact absurd hc hne
    | cons c0 rest =>
      refine ⟨_, builtinTail_of_valid a q c0 rest ha hq hc, ?_⟩
      rw [lval_size_eq a, ha]
      simp only [sizeCells, lval_size_eq q, hc, lval_size_eq { q with cells := rest }]
      omega
  · obtain ⟨msg, hm⟩ := builtinTail_of_invalid a h
    rw [hm]
    exact returnsWithin_lvalErr _ _ (lval_size_pos a)

theorem builtinJoin_total (a : lval) (h : a.cells ≠ []) :
    returnsWithin (builtinJoin a) a.size := by
  cases hc : a.cells with
  | nil => exact absurd hc h
  | cons x rest =>
    by_cases hany : a.cells.any (fun cell => cell.ltype != lvalQexprType) = true
    · simp only [builtinJoin, hany, if_true]
      exact returnsWithin_lvalErr _ _ (lval_size_pos a)
    · simp only [builtinJoin, hany, Bool.false_eq_true, if_false, lvalPop_zero_cons a x rest hc,
        builtinJoinLoop_cellCount]
      refine ⟨_, rfl, ?_⟩
      have hf := sizeCells_flatten_le rest
      rw [lval_size_eq a, hc]
      simp only [sizeCells, lval_size_eq x, sizeCells_append,
        lval_size_eq { x with cells := x.cells ++ (rest.map lval.cells).flatten }]
      omega

theorem builtinEval_total (ev : lval → Except Fault lval) (a : lval)
    (hev : ∀ x : lval, x.size < a.size → returnsWithin (ev x) x.size) :
    returnsWithin (builtinEval ev a) a.size := by
  match hc : a.cells with
  | [] =>
    simp only [builtinEval, lval.cellCount, hc]
    exact returnsWithin_lvalErr _ _ (lval_size_pos a)
  | _ :: _ :: _ =>
    simp only [builtinEval, lval.cellCount, hc]
    exact returnsWithin_lvalErr _ _ (lval_size_pos a)
  | [a0] =>
    have htake : a.lvalTake 0 = .ok a0 := lvalTake_eq a a0 0 (by simp [hc])
    by_cases hq : a0.ltype = lvalQexprType
    · have hlt : ({ a0 with ltype := lvalSexprType } : lval).size < a.size := by
        rw [lval_size_eq a, hc]
        simp only [sizeCells, lval_size_eq a0, lval_size_eq { a0 with ltype := lvalSexprType }]
        omega
      have hsz : ({ a0 with ltype := lvalSexprType } : lval).size ≤ a.size := Nat.le_of_lt hlt
      have := returnsWithin_mono _ _ _ hsz (hev _ hlt)
      simpa [builtinEval, lval.cellCount, hc, hq, htake] using this
    · simp only [builtinEval, lval.cellCount, hc]
      simp [hq]
      exact returnsWithin_lvalErr _ _ (lval_size_pos a)

theorem builtin_total (ev : lval → Except Fault lval) (a : lval) (function : String)
    (h : a.cells ≠ [])
    (hev : ∀ x : lval, x.size < a.size → returnsWithin (ev x) x.size) :
    returnsWithin (builtin ev a function) a.size := by
  unfold builtin
  split_ifs
  · exact ⟨_, rfl, by simp [builtinList, lval_size_eq]⟩
  · exact builtinHead_total a
  · exact builtinTail_total a
  · exact builtinJoin_total a h
  · exact builtinEval_total ev a hev
  · exact builtinOp_total a function h
  · exact returnsWithin_lvalErr _ _ (lval_size_pos a)

/-! ## Termination -/

theorem evalCells_total (ev : lval → Except Fault lval) (cs : List lval)
    (h : ∀ c ∈ cs, returnsWithin (ev c) c.size) :
    ∃ rs, evalCells ev cs = .ok rs ∧ sizeCells rs ≤ sizeCells cs := by
  induction cs with
  | nil => exact ⟨[], rfl, Nat.le_refl _⟩
  | cons c rest ih =>
    obtain ⟨r, hr, hsz⟩ := h c (by simp)
    obtain ⟨rs, hrs, hszs⟩ := ih (fun c' hc' => h c' (List.mem_cons_of_mem _ hc'))
    refine ⟨r :: rs, by simp [evalCells, hr, hrs], ?_⟩
    simp only [sizeCells]
    omega

/-- When the recursive call returns, without adding nodes, on every value
smaller than `v`, so does `lvalEvalSexpr` on `v`. -/
theorem lvalEvalSexpr_total (ev : lval → Except Fault lval) (v : lval)
    (hev : ∀ x : lval, x.size < v.size → returnsWithin (ev x) x.size) :
    returnsWithin (lvalEvalSexpr ev v) v.size := by
  have hv := lval_size_eq v
  obtain ⟨rs, hrs, hle⟩ := evalCells_total ev v.cells (fun c hc =>
    hev c (by have := sizeCells_mem_le v.cells c hc; omega))
  simp only [lvalEvalSexpr, hrs]
  cases hf : firstErrIndex rs 0 with
  | some k =>
    obtain ⟨j, e, hkj, hj, _, _⟩ := firstErrIndex_some rs 0 k hf
    have hk : k = j := by omega
    subst hk
    refine ⟨e, lvalTake_eq _ e k hj, ?_⟩
    have := sizeCells_getElem_le rs k e hj
    omega
  | none =>
    match hc : rs with
    | [] =>
      refine ⟨{ v with cells := [] }, by simp [lval.cellCount], ?_⟩
      simp only [lval_size_eq { v with cells := [] }, sizeCells]
      omega
    | [c] =>
      refine ⟨c, by simp [lval.cellCount, lval.lvalTake, lval.lvalPop], ?_⟩
      simp only [sizeCells] at hle
      omega
    | f :: c :: rest =>
      simp only [sizeCells] at hle
      have hfpos := lval_size_pos f
      simp only [lval.cellCount, List.length_cons]
      rw [lvalPop_zero_cons { v with cells := f :: c :: rest } f (c :: rest) rfl]
      by_cases hsym : f.ltype = lvalSymType
      · have ha : ({ v with cells := c :: rest } : lval).size < v.size := by
          simp only [lval_size_eq { v with cells := c :: rest }, sizeCells]
          omega
        have hb := builtin_total ev { v with cells := c :: rest } f.sym (by simp)
          (fun x hx => hev x (Nat.lt_trans hx ha))
        have := returnsWithin_mono _ _ _ (Nat.le_of_lt ha) hb
        simpa [hsym] using this
      · simp [hsym]
        exact returnsWithin_lvalErr _ _ (lval_size_pos v)

/-- With as much fuel as the value has nodes, `lvalEval` returns a value, and
that value has no more nodes. -/
theorem lvalEval_total : ∀ (fuel : Nat) (v : lval), v.size ≤ fuel →
    returnsWithin (lvalEval fuel v) v.size := by
  intro fuel
  induction fuel with
  | zero =>
    intro v h
    have := lval_size_pos v
    omega
  | succ n ih =>
    intro v h
    by_cases hs : v.ltype = lvalSexprType
    · simp only [lvalEval, hs, beq_self_eq_true, if_true]
      exact lvalEvalSexpr_total (lvalEval n) v (fun x hx => ih x (by omega))
    · simp only [lvalEval, beq_iff_eq, hs, if_false]
      exact ⟨v, rfl, Nat.le_refl _⟩

/-! ## More fuel does not change a result -/

theorem evalCells_mono (ev1 ev2 : lval → Except Fault lval)
    (h : ∀ x r, ev1 x = .ok r → ev2 x = .ok r) (cs : List lval) :
    ∀ rs, evalCells ev1 cs = .ok rs → evalCells ev2 cs = .ok rs := by
  induction cs with
  | nil => intro rs hrs; simpa [evalCells] using hrs
  | cons c rest ih =>
    intro rs hrs
    cases hc : ev1 c with
    | error e => simp [evalCells, hc] at hrs
    | ok c' =>
      cases hrest : evalCells ev1 rest with
      | error e => simp [evalCells, hc, hrest] at hrs
      | ok rs' =>
        simp only [evalCells, hc, hrest] at hrs
        simp only [evalCells, h c c' hc, ih rs' hrest]
        exact hrs

theorem builtinEval_mono (ev1 ev2 : lval → Except Fault lval)
    (h : ∀ x r, ev1 x = .ok r → ev2 x = .ok r) (a r : lval)
    (hr : builtinEval ev1 a = .ok r) : builtinEval ev2 a = .ok r := by
  unfold builtinEval at hr ⊢
  split_ifs at hr ⊢
  · exact hr
  · cases h0 : a.cells[0]? with
    | none => simp [h0] at hr
    | some a0 =>
      simp only [h0] at hr ⊢
      split_ifs at hr ⊢
      · exact hr
      · simp only [lvalTake_eq a a0 0 h0] at hr ⊢
        exact h _ r hr

theorem builtin_mono (ev1 ev2 : lval → Except Fault lval)
    (h : ∀ x r, ev1 x = .ok r → ev2 x = .ok r) (a : lval) (function : String) (r : lval)
    (hr : builtin ev1 a function = .ok r) : builtin ev2 a function = .ok r := by
  unfold builtin at hr ⊢
  split_ifs at hr ⊢
  · exact hr
  · exact hr
  · exact hr
  · exact hr
  · exact builtinEval_mono ev1 ev2 h a r hr
  · exact hr
  · exact hr

theorem lvalEvalSexpr_mono (ev1 ev2 : lval → Except Fault lval)
    (h : ∀ x r, ev1 x = .ok r → ev2 x = .ok r) (v r : lval)
    (hr : lvalEvalSexpr ev1 v = .ok r) : lvalEvalSexpr ev2 v = .ok r := by
  unfold lvalEvalSexpr at hr ⊢
  cases hcs : evalCells ev1 v.cells with
  | error e => simp [hcs] at hr
  | ok cs =>
    simp only [hcs] at hr
    simp only [evalCells_mono ev1 ev2 h v.cells cs hcs]
    cases hf : firstErrIndex cs 0 with
    | some k =>
      simp only [hf] at hr ⊢
      exact hr
    | none =>
      simp only [hf] at hr ⊢
      split_ifs at hr ⊢
      · exact hr
      · exact hr
      · cases hp : lval.lvalPop { v with cells := cs } 0 with
        | error e => simp [hp] at hr
        | ok p =>
          obtain ⟨f, a⟩ := p
          simp only [hp] at hr ⊢
          split_ifs at hr ⊢
          · exact hr
          · exact builtin_mono ev1 ev2 h a f.sym r hr

theorem lvalEval_mono : ∀ (fuel : Nat) (v r : lval),
    lvalEval fuel v = .ok r → lvalEval (fuel + 1) v = .ok r := by
  intro fuel
  induction fuel with
  | zero => intro v r h; simp [lvalEval] at h
  | succ n ih =>
    intro v r h
    rw [lvalEval] at h ⊢
    split_ifs at h ⊢
    · exact lvalEvalSexpr_mono (lvalEval n) (lvalEval (n + 1)) ih v r h
    · exact h

theorem lvalEval_mono_add (fuel : Nat) (v r : lval) (h : lvalEval fuel v = .ok r) :
    ∀ k : Nat, lvalEval (fuel + k) v = .ok r := by
  intro k
  induction k with
  | zero => exact h
  | succ m ih => exact lvalEval_mono (fuel + m) v r ih

/-! ## The only fault is the exhaustion of fuel -/

theorem evalCells_fault (ev : lval → Except Fault lval) (cs : List lval) (e : Fault)
    (h : evalCells ev cs = .error e) : ∃ c ∈ cs, ev c = .error e := by
  induction cs with
  | nil => simp [evalCells] at h
  | cons c rest ih =>
    cases hc : ev c with
    | error e' =>
      simp only [evalCells, hc, Except.error.injEq] at h
      exact ⟨c, by simp, by rw [hc, h]⟩
    | ok c' =>
      cases hrest : evalCells ev rest with
      | error e' =>
        simp only [evalCells, hc, hrest, Except.error.injEq] at h
        obtain ⟨c2, hc2, he⟩ := ih (by rw [hrest, h])
        exact ⟨c2, List.mem_cons_of_mem _ hc2, he⟩
      | ok rs => simp [evalCells, hc, hrest] at h

theorem not_error_of_returnsWithin (res : Except Fault lval) (bound : Nat) (e : Fault)
    (h : returnsWithin res bound) : res ≠ .error e := by
  obtain ⟨r, hr, _⟩ := h
  rw [hr]
  simp

theorem builtin_fault (ev : lval → Except Fault lval) (a : lval) (function : String)
    (ha : a.cells ≠ []) (hev : ∀ x e, ev x = .error e → e = Fault.outOfFuel) (e : Fault)
    (h : builtin ev a function = .error e) : e = Fault.outOfFuel := by
  unfold builtin at h
  split_ifs at h
  · exact absurd h (not_error_of_returnsWithin _ _ e (builtinHead_total a))
  · exact absurd h (not_error_of_returnsWithin _ _ e (builtinTail_total a))
  · exact absurd h (not_error_of_returnsWithin _ _ e (builtinJoin_total a ha))
  · unfold builtinEval at h
    split_ifs at h
    cases h0 : a.cells[0]? with
    | none =>
      rename_i hcount
      have : a.cells.length = 1 := by simpa [lval.cellCount] using hcount
      cases hc : a.cells with
      | nil => simp [hc] at this
      | cons x xs => simp [hc] at h0
    | some a0 =>
      simp only [h0] at h
      split_ifs at h
      simp only [lvalTake_eq a a0 0 h0] at h
      exact hev _ e h
  · exact absurd h (not_error_of_returnsWithin _ _ e (builtinOp_total a function ha))

theorem lvalEvalSexpr_fault (ev : lval → Except Fault lval) (v : lval)
    (hev : ∀ x e, ev x = .error e → e = Fault.outOfFuel) (e : Fault)
    (h : lvalEvalSexpr ev v = .error e) : e = Fault.outOfFuel := by
  unfold lvalEvalSexpr at h
  cases hcs : evalCells ev v.cells with
  | error e' =>
    simp only [hcs, Except.error.injEq] at h
    obtain ⟨c, _, hc⟩ := evalCells_fault ev v.cells e' hcs
    rw [← h]
    exact hev c e' hc
  | ok cs =>
    simp only [hcs] at h
    cases hf : firstErrIndex cs 0 with
    | some k =>
      obtain ⟨j, x, hkj, hj, _, _⟩ := firstErrIndex_some cs 0 k hf
      have hk : k = j := by omega
      subst hk
      simp only [hf] at h
      rw [lvalTake_eq _ x k hj] at h
      simp at h
    | none =>
      simp only [hf] at h
      match hc : cs with
      | [] => simp [lval.cellCount] at h
      | [c] => simp [lval.cellCount, lval.lvalTake, lval.lvalPop] at h
      | f :: c :: rest =>
        simp only [lval.cellCount, List.length_cons] at h
        rw [lvalPop_zero_cons { v with cells := f :: c :: rest } f (c :: rest) rfl] at h
        by_cases hsym : f.ltype = lvalSymType
        · simp [hsym] at h
          exact builtin_fault ev _ f.sym (by simp) hev e h
        · simp [hsym] at h

theorem lvalEval_fault : ∀ (fuel : Nat) (v : lval) (e : Fault),
    lvalEval fuel v = .error e → e = Fault.outOfFuel := by
  intro fuel
  induction fuel with
  | zero =>
    intro v e h
    simp only [lvalEval, Except.error.injEq] at h
    exact h.symm
  | succ n ih =>
    intro v e h
    rw [lvalEval] at h
    split_ifs at h
    exact lvalEvalSexpr_fault (lvalEval n) v ih e h

/-! ## Termination and safety of `lvalEval` -/

/-- C21: `lvalEval` terminates on every value: with as much fuel as the value
has nodes, or more, it returns one and the same value, which has no more
nodes than the argument. The recursion is well founded on the node count:
`lvalEvalSexpr` on `v` returns as soon as the recursive call returns, without
adding nodes, on the values with strictly fewer nodes than `v`, and the value
that `builtinEval` hands to the nested evaluation has strictly fewer nodes
than the argument list. -/
theorem lvalEval_terminates (v : lval) :
    (∃ r, r.size ≤ v.size ∧ ∀ k : Nat, lvalEval (v.size + k) v = .ok r) ∧
    (∀ ev : lval → Except Fault lval,
      (∀ x : lval, x.size < v.size → returnsWithin (ev x) x.size) →
        returnsWithin (lvalEvalSexpr ev v) v.size) ∧
    (∀ (ev : lval → Except Fault lval) (a0 : lval),
      v.cells = [a0] → a0.ltype = lvalQexprType →
        builtinEval ev v = ev { a0 with ltype := lvalSexprType } ∧
        ({ a0 with ltype := lvalSexprType } : lval).size < v.size) := by
  refine ⟨?_, fun ev hev => lvalEvalSexpr_total ev v hev, ?_⟩
  · obtain ⟨r, hr, hsz⟩ := lvalEval_total v.size v (Nat.le_refl _)
    exact ⟨r, hsz, lvalEval_mono_add v.size v r hr⟩
  · intro ev a0 hc hq
    have htake : v.lvalTake 0 = .ok a0 := lvalTake_eq v a0 0 (by simp [hc])
    constructor
    · simp [builtinEval, lval.cellCount, hc, hq, htake]
    · rw [lval_size_eq v, hc]
      simp only [sizeCells, lval_size_eq a0, lval_size_eq { a0 with ltype := lvalSexprType }]
      omega

/-- C22: evaluation never indexes out of bounds: whatever the fuel, the only
fault `lvalEval` can end in is the exhaustion of the fuel, and with as much
fuel as the value has nodes it returns a value. When `lvalEvalSexpr` calls
`builtin`, the first of at least two evaluated cells has been popped, so the
argument list has a cell; on an empty argument list the unconditional pops of
`builtinOp` and `builtinJoin` would be out of range. -/
theorem lvalEval_index_safe (fuel : Nat) (v : lval) :
    (∀ e : Fault, lvalEval fuel v = .error e → e = Fault.outOfFuel) ∧
    lvalEval fuel v ≠ .error Fault.indexOutOfRange ∧
    (∃ r, lvalEval (v.size + fuel) v = .ok r) ∧
    (∀ (ev : lval → Except Fault lval) (f c : lval) (rest : List lval),
      evalCells ev v.cells = .ok (f :: c :: rest) →
      firstErrIndex (f :: c :: rest) 0 = none → f.ltype = lvalSymType →
        lvalEvalSexpr ev v = builtin ev { v with cells := c :: rest } f.sym ∧
        ({ v with cells := c :: rest } : lval).cells ≠ []) ∧
    builtinOp (sexprOf []) "+" = .error Fault.indexOutOfRange ∧
    builtinJoin (sexprOf []) = .error Fault.indexOutOfRange := by
  refine ⟨lvalEval_fault fuel v, ?_, ?_, ?_, rfl, rfl⟩
  · intro h
    have := lvalEval_fault fuel v _ h
    exact absurd this (by decide)
  · obtain ⟨r, hr, _⟩ := lvalEval_total v.size v (Nat.le_refl _)
    exact ⟨r, lvalEval_mono_add v.size v r hr fuel⟩
  · intro ev f c rest hcs hnone hsym
    constructor
    · simp only [lvalEvalSexpr, hcs, hnone, lval.cellCount, List.length_cons]
      rw [lvalPop_zero_cons { v with cells := f :: c :: rest } f (c :: rest) rfl]
      simp [hsym]
    · simp
end Lispy
